import Mathlib

/-!
Shallow embedding of the Rwanda Infrastructure Management System
(`src/RIMS/main.cpp`): the in-memory manager state (city list, adjacency
matrix, budget matrix), the road/city file persistence routines, and the
reconcile-then-rewrite save algorithm.

Modelling conventions:
* C++ `std::string` city names are `List Char`; the character predicates
  `isalpha`/`isalnum` (C locale) are Lean's ASCII `Char.isAlpha`/`Char.isAlphanum`.
* C++ `double` budgets are `ℚ` with exact arithmetic; the `fixed <<
  setprecision(1)` formatting of a written budget is modelled as rounding to
  the nearest tenth (`roundTo1`).
* A line of `data/roads.txt` that survived tab-splitting and `stoi`/`stod`
  is a `DiskRoad` (identifier, middle text field, budget); lines that fail
  those steps are simply absent from the modelled file, matching the
  `continue`-on-exception behaviour.  The middle field `<c1> - <c2>` is kept
  as text because the parser splits it at the *first* `" - "` occurrence,
  which is observable when a city name itself contains that sequence.
* The interactive input loops accept an input only when its validation
  passes; each operation is embedded as a function that performs the update
  when the validation guard holds and leaves the state unchanged otherwise.
-/

namespace RIMS

abbrev Name := List Char

/-- Characters allowed by `is_valid_city_name` (alnum, space, hyphen). -/
def goodChar (c : Char) : Bool := c.isAlphanum || c == ' ' || c == '-'

/-- `InfrastructureManager::is_valid_city_name` (main.cpp:46-58). -/
def is_valid_city_name (n : Name) : Bool :=
  if n.length < 2 then false
  else n.all goodChar && n.any Char.isAlpha

/-- `InfrastructureManager::is_valid_budget` (main.cpp:61-63). -/
def is_valid_budget (b : ℚ) : Bool := decide (0 < b) && decide (b ≤ 1000)

/-- `InfrastructureManager::get_city_index` (main.cpp:33-38): index of the
first occurrence of `x`, `none` for the C++ sentinel `-1`. -/
def cityIndex : List Name → Name → Option Nat
  | [], _ => none
  | n :: ns, x => if n = x then some 0 else (cityIndex ns x).map (· + 1)

/-- `InfrastructureManager::city_exists` (main.cpp:41-43). -/
def city_exists (ns : List Name) (x : Name) : Bool := (cityIndex ns x).isSome

/-- The manager's data members (main.cpp:27-29). -/
structure Mgr where
  city_names : List Name
  roads : List (List Nat)
  budgets : List (List ℚ)
deriving DecidableEq

/-- Matrix cell read `M[i][j]` (out-of-range reads a default, which the C++
code never performs on reachable indices). -/
def cellOf (M : List (List α)) (d : α) (i j : Nat) : α := (M.getD i []).getD j d

def cellR (m : Mgr) (i j : Nat) : Nat := cellOf m.roads 0 i j

def cellB (m : Mgr) (i j : Nat) : ℚ := cellOf m.budgets 0 i j

/-- Single matrix cell write `M[i][j] = v`. -/
def setMat (M : List (List α)) (i j : Nat) (v : α) : List (List α) :=
  M.set i ((M.getD i []).set j v)

/-- The symmetric write `M[i][j] = M[j][i] = v` (main.cpp:246-247, 329, 365). -/
def setSym (M : List (List α)) (i j : Nat) (v : α) : List (List α) :=
  setMat (setMat M j i v) i j v

/-- `std::vector::resize(n, z)`: truncate or zero-fill to length `n`. -/
def resizeL (row : List α) (n : Nat) (z : α) : List α :=
  row.take n ++ List.replicate (n - row.length) z

/-- Appending one city and growing both matrices by a zero row and column:
the shared code of `load_cities_from_file` (main.cpp:207-212) and
`add_cities` (main.cpp:292-297). -/
def addCityRaw (m : Mgr) (name : Name) : Mgr :=
  { city_names := m.city_names ++ [name]
    roads := (m.roads.map (fun row => resizeL row (m.city_names.length + 1) 0))
      ++ [List.replicate (m.city_names.length + 1) 0]
    budgets := (m.budgets.map (fun row => resizeL row (m.city_names.length + 1) 0))
      ++ [List.replicate (m.city_names.length + 1) 0] }

/-- One accepted name of the `add_cities` input loop (main.cpp:276-298):
the loop re-prompts until the name is nonempty, new and valid, so an input
failing a guard produces no state change. -/
def add_cities_step (m : Mgr) (name : Name) : Mgr :=
  if name ≠ [] ∧ ¬ city_exists m.city_names name ∧ is_valid_city_name name then
    addCityRaw m name
  else m

/-- `InfrastructureManager::add_cities` over the accepted names. -/
def add_cities (m : Mgr) (names : List Name) : Mgr :=
  names.foldl add_cities_step m

/-- `InfrastructureManager::add_road` (main.cpp:304-332), with the input
loops' acceptance conditions as the guard. -/
def add_road (m : Mgr) (c1 c2 : Name) : Mgr :=
  match cityIndex m.city_names c1, cityIndex m.city_names c2 with
  | some i, some j =>
      if c2 ≠ c1 ∧ cellR m i j ≠ 1 then
        { m with roads := setSym m.roads i j 1 }
      else m
  | _, _ => m

/-- `InfrastructureManager::add_budget` (main.cpp:335-368), with the input
loops' acceptance conditions as the guard. -/
def add_budget (m : Mgr) (c1 c2 : Name) (b : ℚ) : Mgr :=
  match cityIndex m.city_names c1, cityIndex m.city_names c2 with
  | some i, some j =>
      if cellR m i j ≠ 0 ∧ is_valid_budget b then
        { m with budgets := setSym m.budgets i j b }
      else m
  | _, _ => m

/-- `InfrastructureManager::edit_city` (main.cpp:371-401): `idx` is the
1-based index entered by the user; the guard is the acceptance condition of
the two input loops. -/
def edit_city (m : Mgr) (idx : Nat) (new : Name) : Mgr :=
  if 1 ≤ idx ∧ idx ≤ m.city_names.length ∧ new ≠ [] ∧
      ¬ city_exists m.city_names new ∧ is_valid_city_name new then
    { m with city_names := m.city_names.set (idx - 1) new }
  else m

/-! ### The road file -/

/-- One parsed road record held in memory: `RoadEntry` in
`save_roads_to_file` (main.cpp:104-108). -/
structure RoadEntry where
  nbr : Int
  city1 : Name
  city2 : Name
  budget : ℚ
deriving DecidableEq

/-- One data line of `data/roads.txt` after tab-splitting and number
parsing: identifier, the middle `Road` text field, and the budget. -/
structure DiskRoad where
  nbr : Int
  field : Name
  budget : ℚ
deriving DecidableEq

/-- The mandatory endpoint separator, `" - "`. -/
def sepChars : List Char := [' ', '-', ' ']

/-- Does the list start with `" - "`? -/
def startsWithSep : List Char → Bool
  | a :: b :: c :: _ => a == ' ' && b == '-' && c == ' '
  | _ => false

/-- Does `" - "` occur anywhere in the list? -/
def hasSep : List Char → Bool
  | [] => false
  | c :: cs => startsWithSep (c :: cs) || hasSep cs

/-- `road.find(" - ")` followed by the two `substr` calls
(main.cpp:136-139, 238-241): split at the first `" - "` occurrence. -/
def splitFirstSep : List Char → Option (List Char × List Char)
  | [] => none
  | c :: cs =>
      if startsWithSep (c :: cs) then some ([], cs.drop 2)
      else (splitFirstSep cs).map (fun p => (c :: p.1, p.2))

/-- Parsing the middle field of a disk line into a `RoadEntry`; `none`
models the `continue` when `" - "` is absent (main.cpp:137, 239). -/
def parseDisk (d : DiskRoad) : Option RoadEntry :=
  (splitFirstSep d.field).map fun p => ⟨d.nbr, p.1, p.2, d.budget⟩

/-- `fixed << setprecision(1)` budget formatting: round to the nearest
tenth, `⌊10q + 1/2⌋ / 10`, written on the numerator and denominator so that
it evaluates by kernel reduction (`⌊x + 1/2⌋ = (20 num + den).fdiv (2 den)`). -/
def roundTo1 (q : ℚ) : ℚ := mkRat ((20 * q.num + q.den).fdiv (2 * q.den)) 10

/-- Writing one record as a disk line (main.cpp:186-187). -/
def writeRoad (e : RoadEntry) : DiskRoad :=
  ⟨e.nbr, e.city1 ++ sepChars ++ e.city2, roundTo1 e.budget⟩

/-- Re-parsing a record written by the save: the endpoint names survive
(when they hold no separator occurrence) and the budget is the formatted
value; used to analyse a save whose prior file was itself written by a
save. -/
def reparse (r : RoadEntry) : RoadEntry :=
  ⟨r.nbr, r.city1, r.city2, roundTo1 r.budget⟩

/-- The unordered endpoint-pair match of the reconcile loop
(main.cpp:159-160). -/
def matchesPair (c1 c2 : Name) (e : RoadEntry) : Bool :=
  (e.city1 == c1 && e.city2 == c2) || (e.city1 == c2 && e.city2 == c1)

/-- The linear scan for a matching prior record (main.cpp:158-165). -/
def findRoad (ex : List RoadEntry) (c1 c2 : Name) : Option RoadEntry :=
  ex.find? (matchesPair c1 c2)

/-- `existing_roads.empty() ? 1 : existing_roads.back().nbr + 1`
(main.cpp:169): note this reads the *last* record of the unchanged
`existing_roads` list, so it is the same value for every unmatched edge of
one save. -/
def nextNbr (ex : List RoadEntry) : Int :=
  match ex.getLast? with
  | none => 1
  | some e => e.nbr + 1

/-- The unordered pairs `i < j` enumerated by the nested save loops
(main.cpp:149-151), restricted to cells holding a road. -/
def edgePairs (m : Mgr) : List (Nat × Nat) :=
  ((List.range m.roads.length).map (fun i =>
    (List.range (m.roads.getD i []).length).filterMap (fun j =>
      if i < j ∧ cellR m i j = 1 then some (i, j) else none))).flatten

/-- The record emitted for one enumerated edge (main.cpp:152-171): a
matched edge carries the matched record's identifier, an unmatched one the
next identifier; both carry the current endpoint names and current budget. -/
def entryFor (m : Mgr) (ex : List RoadEntry) (p : Nat × Nat) : RoadEntry :=
  match findRoad ex (m.city_names.getD p.1 []) (m.city_names.getD p.2 []) with
  | some e => ⟨e.nbr, m.city_names.getD p.1 [], m.city_names.getD p.2 [], cellB m p.1 p.2⟩
  | none => ⟨nextNbr ex, m.city_names.getD p.1 [], m.city_names.getD p.2 [], cellB m p.1 p.2⟩

/-- Insertion step of sorting by `Nbr` (models `std::sort` with the
comparator of main.cpp:176-179; ties between equal identifiers are in
unspecified order in C++, and every property proved below about record
order is insensitive to the tie order). -/
def insertByNbr (e : RoadEntry) : List RoadEntry → List RoadEntry
  | [] => [e]
  | f :: fs => if e.nbr ≤ f.nbr then e :: f :: fs else f :: insertByNbr e fs

/-- Sort the emitted records ascending by `Nbr` (main.cpp:176-179). -/
def sortByNbr : List RoadEntry → List RoadEntry
  | [] => []
  | e :: es => insertByNbr e (sortByNbr es)

/-- The reconcile step of `save_roads_to_file` (main.cpp:146-179), acting on
the already-parsed prior records. -/
def reconcile (m : Mgr) (ex : List RoadEntry) : List RoadEntry :=
  sortByNbr ((edgePairs m).map (entryFor m ex))

/-- `InfrastructureManager::save_roads_to_file` (main.cpp:100-193) as a
function from the current state and prior disk file to the new disk file. -/
def save_roads_to_file (m : Mgr) (disk : List DiskRoad) : List DiskRoad :=
  (reconcile m (disk.filterMap parseDisk)).map writeRoad

/-- `InfrastructureManager::save_cities_to_file` (main.cpp:85-97): the name
fields of the written lines. -/
def save_cities_to_file (m : Mgr) : List Name := m.city_names

/-- One record of `load_roads_from_file` (main.cpp:225-249): resolve both
endpoints and validate the budget; on success write the symmetric cells,
otherwise leave the state untouched and continue. -/
def load_road_step (m : Mgr) (e : RoadEntry) : Mgr :=
  match cityIndex m.city_names e.city1, cityIndex m.city_names e.city2 with
  | some i, some j =>
      if is_valid_budget e.budget then
        { m with roads := setSym m.roads i j 1
                 budgets := setSym m.budgets i j e.budget }
      else m
  | _, _ => m

/-- `InfrastructureManager::load_roads_from_file` (main.cpp:219-251). -/
def load_roads_from_file (m : Mgr) (disk : List DiskRoad) : Mgr :=
  (disk.filterMap parseDisk).foldl load_road_step m

/-- One line of `load_cities_from_file` (main.cpp:202-213). -/
def load_city_step (m : Mgr) (name : Name) : Mgr :=
  if is_valid_city_name name ∧ ¬ city_exists m.city_names name then
    addCityRaw m name
  else m

/-- `InfrastructureManager::load_cities_from_file` (main.cpp:196-216) over
the name fields of the file's data lines. -/
def load_cities_from_file (m : Mgr) (names : List Name) : Mgr :=
  names.foldl load_city_step m

/-- The state constructed by `InfrastructureManager()` (main.cpp:255-260). -/
def emptyMgr : Mgr := ⟨[], [], []⟩

def init_mgr (cityFile : List Name) (roadFile : List DiskRoad) : Mgr :=
  load_roads_from_file (load_cities_from_file emptyMgr cityFile) roadFile

/-- Outcome of one `save_roads_to_file` call including the
write-availability of the destination (main.cpp:182-192): when the
destination cannot be opened the routine only prints an error; the member
state is never written to by the save in either branch, and on failure the
old file contents remain. -/
structure SaveOutcome where
  mgr : Mgr
  disk : List DiskRoad
  reported_error : Bool
deriving DecidableEq

def save_roads_op (writable : Bool) (m : Mgr) (disk : List DiskRoad) : SaveOutcome :=
  if writable then ⟨m, save_roads_to_file m disk, false⟩
  else ⟨m, disk, true⟩

/-- The canonical edge enumeration of §4.2: unordered pairs `i < j` with a
present road, with their budgets, in ascending lexicographic order. -/
def canonEnum (m : Mgr) : List (Nat × Nat × ℚ) :=
  (edgePairs m).map fun p => (p.1, p.2, cellB m p.1 p.2)

/-! ### Structural invariants -/

/-- Both matrices are square with side length the number of cities. -/
def Square (m : Mgr) : Prop :=
  m.roads.length = m.city_names.length ∧
  m.budgets.length = m.city_names.length ∧
  (∀ r ∈ m.roads, r.length = m.city_names.length) ∧
  (∀ r ∈ m.budgets, r.length = m.city_names.length)

instance : DecidablePred Square := fun m => by
  unfold Square; infer_instance

def SymR (m : Mgr) : Prop := ∀ i j, cellR m i j = cellR m j i

def SymB (m : Mgr) : Prop := ∀ i j, cellB m i j = cellB m j i

def DiagR (m : Mgr) : Prop := ∀ i, cellR m i i = 0

def DiagB (m : Mgr) : Prop := ∀ i, cellB m i i = 0

/-- Names are distinct and both matrices are square of side `#cities`. -/
def GoodCity (m : Mgr) : Prop := Square m ∧ m.city_names.Nodup

instance : DecidablePred GoodCity := fun m => by
  unfold GoodCity; infer_instance

/-- The combined invariant used for invariance of every operation. -/
def FullInv (m : Mgr) : Prop :=
  GoodCity m ∧ SymR m ∧ SymB m ∧ DiagR m ∧ DiagB m

/-- `n × n` matrix of `z`. -/
def zeroM (n : Nat) (z : α) : List (List α) :=
  List.replicate n (List.replicate n z)

/-! ### Concrete states used as witnesses and counterexamples -/

def nAa : Name := ['A', 'a']
def nBb : Name := ['B', 'b']
def nCc : Name := ['C', 'c']
def nXx : Name := ['X', 'x']
def nYy : Name := ['Y', 'y']
def nPp : Name := ['P', 'p']
def nQq : Name := ['Q', 'q']
/-- The (valid) city name `A - B`, which contains the endpoint separator. -/
def nAdashB : Name := ['A', ' ', '-', ' ', 'B']
def nCC : Name := ['C', 'C']

/-- Three cities, all three roads present, budgets 5. -/
def mgr3 : Mgr :=
  ⟨[nAa, nBb, nCc],
   [[0, 1, 1], [1, 0, 1], [1, 1, 0]],
   [[0, 5, 5], [5, 0, 5], [5, 5, 0]]⟩

/-- Two cities, one road `Aa–Bb`, budget 5. -/
def mgr2 : Mgr :=
  ⟨[nAa, nBb], [[0, 1], [1, 0]], [[0, 5], [5, 0]]⟩

/-- Two cities, one road `Aa–Bb`, budget 0 (road added, budget never set). -/
def mgr2z : Mgr :=
  ⟨[nAa, nBb], [[0, 1], [1, 0]], [[0, 0], [0, 0]]⟩

/-- One city, empty matrices. -/
def mgr1 : Mgr := ⟨[nAa], [[0]], [[0]]⟩

/-- Cities `A - B` and `CC` with one road between them, budget 5. -/
def mgrSep : Mgr :=
  ⟨[nAdashB, nCC], [[0, 1], [1, 0]], [[0, 5], [5, 0]]⟩

/-- Prior file holding the single record `1  Aa - Bb  5.0`. -/
def fileAaBb : List DiskRoad := [⟨1, nAa ++ sepChars ++ nBb, 5⟩]

/-- An externally edited prior file whose records are not sorted:
identifiers 5 then 3, endpoints not resolving to current cities. -/
def fileUnsorted : List DiskRoad :=
  [⟨5, nXx ++ sepChars ++ nYy, 3⟩, ⟨3, nPp ++ sepChars ++ nQq, 3⟩]

/-- A hand-edited file with a self-loop record `1  Aa - Aa  10.0`. -/
def fileSelfLoop : List DiskRoad := [⟨1, nAa ++ sepChars ++ nAa, 10⟩]

/-! ### Helper lemmas: separator splitting -/

theorem startsWithSep_sep_context (a : Char) (d c2 : List Char) :
    startsWithSep ((a :: d) ++ sepChars ++ c2) = startsWithSep ((a :: d) ++ [' ', '-']) := by
  match d with
  | [] => simp [sepChars, startsWithSep]
  | [b] => simp [sepChars, startsWithSep]
  | b :: c :: rest => simp [sepChars, startsWithSep]

/-- Splitting `<c1> - <c2>` at the first `" - "` recovers `(c1, c2)`
provided no `" - "` occurrence starts inside `c1` (including one spilling
into the separator, i.e. `c1` ending in `" -"`). -/
theorem splitFirstSep_append (c1 c2 : List Char)
    (h : hasSep (c1 ++ [' ', '-']) = false) :
    splitFirstSep (c1 ++ sepChars ++ c2) = some (c1, c2) := by
  induction c1 with
  | nil => simp [sepChars, splitFirstSep, startsWithSep]
  | cons a d ih =>
      simp only [List.cons_append, hasSep, Bool.or_eq_false_iff] at h
      obtain ⟨h1, h2⟩ := h
      have hsw : startsWithSep ((a :: d) ++ sepChars ++ c2) = false := by
        rw [startsWithSep_sep_context]
        simpa using h1
      have hshape : (a :: d) ++ sepChars ++ c2 = a :: (d ++ sepChars ++ c2) := by simp
      rw [hshape] at hsw ⊢
      rw [splitFirstSep, hsw]
      simp only [Bool.false_eq_true, if_false]
      rw [ih h2]
      rfl

theorem parseDisk_writeRoad (e : RoadEntry)
    (h : hasSep (e.city1 ++ [' ', '-']) = false) :
    parseDisk (writeRoad e) = some ⟨e.nbr, e.city1, e.city2, roundTo1 e.budget⟩ := by
  unfold parseDisk writeRoad
  rw [splitFirstSep_append e.city1 e.city2 h]
  rfl

/-! ### Helper lemmas: city lookup -/

theorem cityIndex_eq_none_iff (ns : List Name) (x : Name) :
    cityIndex ns x = none ↔ x ∉ ns := by
  induction ns with
  | nil => simp [cityIndex]
  | cons n ns ih =>
      rw [cityIndex]
      by_cases h : n = x
      · simp [h]
      · simp only [if_neg h, List.mem_cons, Option.map_eq_none', ih]
        constructor
        · rintro hx (h1 | h2)
          · exact h h1.symm
          · exact hx h2
        · intro hx h2
          exact hx (Or.inr h2)

theorem cityIndex_some {ns : List Name} {x : Name} {i : Nat} (d : Name)
    (h : cityIndex ns x = some i) : i < ns.length ∧ ns.getD i d = x := by
  induction ns generalizing i with
  | nil => simp [cityIndex] at h
  | cons n ns ih =>
      rw [cityIndex] at h
      by_cases hn : n = x
      · rw [if_pos hn] at h
        cases h
        simpa using hn
      · rw [if_neg hn, Option.map_eq_some'] at h
        obtain ⟨j, hj, rfl⟩ := h
        obtain ⟨h1, h2⟩ := ih hj
        exact ⟨Nat.succ_lt_succ h1, h2⟩

theorem cityIndex_getD_of_nodup {ns : List Name} {i : Nat} (d : Name)
    (hn : ns.Nodup) (hi : i < ns.length) :
    cityIndex ns (ns.getD i d) = some i := by
  induction ns generalizing i with
  | nil => simp at hi
  | cons n ns ih =>
      rw [List.nodup_cons] at hn
      match i with
      | 0 => simp [cityIndex]
      | j + 1 =>
          have hj : j < ns.length := Nat.lt_of_succ_lt_succ hi
          have hmem : ns.getD j d ∈ ns := by
            rw [List.getD_eq_getElem?_getD, List.getElem?_eq_getElem hj]
            exact List.getElem_mem hj
          have hne : ¬ n = (n :: ns).getD (j + 1) d := by
            rw [List.getD_cons_succ]
            intro he
            exact hn.1 (by rw [he]; exact hmem)
          rw [cityIndex, if_neg hne, List.getD_cons_succ, ih hn.2 hj]
          rfl

/-- Under distinct city names, positions with equal names coincide. -/
theorem getD_inj_of_nodup {ns : List Name} {i j : Nat} (d : Name)
    (hn : ns.Nodup) (hi : i < ns.length) (hj : j < ns.length)
    (h : ns.getD i d = ns.getD j d) : i = j := by
  have h1 := @cityIndex_getD_of_nodup ns i d hn hi
  have h2 := @cityIndex_getD_of_nodup ns j d hn hj
  rw [h] at h1
  rw [h1] at h2
  exact Option.some_injective _ h2

/-! ### Helper lemmas: sorting and membership -/

theorem insertByNbr_perm (e : RoadEntry) (l : List RoadEntry) :
    (insertByNbr e l).Perm (e :: l) := by
  induction l with
  | nil => exact List.Perm.refl _
  | cons f fs ih =>
      rw [insertByNbr]
      by_cases h : e.nbr ≤ f.nbr
      · rw [if_pos h]
      · rw [if_neg h]
        exact (ih.cons f).trans (List.Perm.swap e f fs)

theorem sortByNbr_perm (l : List RoadEntry) : (sortByNbr l).Perm l := by
  induction l with
  | nil => exact List.Perm.refl _
  | cons e es ih =>
      rw [sortByNbr]
      exact (insertByNbr_perm e (sortByNbr es)).trans (ih.cons e)

theorem mem_sortByNbr {a : RoadEntry} {l : List RoadEntry} :
    a ∈ sortByNbr l ↔ a ∈ l :=
  (sortByNbr_perm l).mem_iff

theorem mem_edgePairs {m : Mgr} {p : Nat × Nat} :
    p ∈ edgePairs m ↔
      p.1 < m.roads.length ∧ p.2 < (m.roads.getD p.1 []).length ∧
      p.1 < p.2 ∧ cellR m p.1 p.2 = 1 := by
  unfold edgePairs
  constructor
  · intro hmem
    rw [List.mem_flatten] at hmem
    obtain ⟨l, hl, hpl⟩ := hmem
    rw [List.mem_map] at hl
    obtain ⟨i, hi, rfl⟩ := hl
    rw [List.mem_range] at hi
    rw [List.mem_filterMap] at hpl
    obtain ⟨j, hj, hij⟩ := hpl
    rw [List.mem_range] at hj
    split at hij
    · rename_i hcond
      have hp := Option.some.inj hij
      subst hp
      exact ⟨hi, hj, hcond.1, hcond.2⟩
    · exact absurd hij (by simp)
  · rintro ⟨h1, h2, h3, h4⟩
    rw [List.mem_flatten]
    refine ⟨_, List.mem_map.2 ⟨p.1, List.mem_range.2 h1, rfl⟩, ?_⟩
    rw [List.mem_filterMap]
    exact ⟨p.2, List.mem_range.2 h2, by simp [h3, h4]⟩

theorem mem_reconcile {m : Mgr} {ex : List RoadEntry} {r : RoadEntry} :
    r ∈ reconcile m ex ↔ ∃ p ∈ edgePairs m, r = entryFor m ex p := by
  unfold reconcile
  rw [mem_sortByNbr, List.mem_map]
  constructor
  · rintro ⟨p, hp, rfl⟩; exact ⟨p, hp, rfl⟩
  · rintro ⟨p, hp, rfl⟩; exact ⟨p, hp, rfl⟩

theorem matchesPair_iff {c1 c2 : Name} {e : RoadEntry} :
    matchesPair c1 c2 e = true ↔
      (e.city1 = c1 ∧ e.city2 = c2) ∨ (e.city1 = c2 ∧ e.city2 = c1) := by
  unfold matchesPair
  simp

/-! ### Helper lemmas: matrix cells -/

theorem getD_mem {l : List β} {i : Nat} (h : i < l.length) (d : β) :
    l.getD i d ∈ l := by
  rw [List.getD_eq_getElem?_getD, List.getElem?_eq_getElem h]
  exact List.getElem_mem h

theorem cellOf_setMat (M : List (List α)) (d : α) (i j : Nat) (v : α) (a b : Nat)
    (hi : i < M.length) (hj : j < (M.getD i []).length) :
    cellOf (setMat M i j v) d a b =
      if a = i ∧ b = j then v else cellOf M d a b := by
  unfold cellOf setMat
  by_cases ha : a = i
  · subst ha
    rw [List.getD_eq_getElem?_getD (M.set a _),
      List.getElem?_set_self (by simpa using hi), Option.getD_some]
    by_cases hb : b = j
    · subst hb
      rw [if_pos ⟨rfl, rfl⟩, List.getD_eq_getElem?_getD,
        List.getElem?_set_self hj, Option.getD_some]
    · rw [if_neg (fun hc => hb hc.2), List.getD_eq_getElem?_getD,
        List.getElem?_set_ne (fun hc => hb hc.symm), ← List.getD_eq_getElem?_getD]
  · rw [if_neg (fun hc => ha hc.1), List.getD_eq_getElem?_getD (M.set i _),
      List.getElem?_set_ne (fun hc => ha hc.symm), ← List.getD_eq_getElem?_getD]

theorem length_setMat (M : List (List α)) (i j : Nat) (v : α) :
    (setMat M i j v).length = M.length := by
  unfold setMat
  exact List.length_set M i _

theorem rows_setMat (M : List (List α)) (i j : Nat) (v : α) (n : Nat)
    (hrows : ∀ r ∈ M, r.length = n) (hi : i < M.length) :
    ∀ r ∈ setMat M i j v, r.length = n := by
  intro r hr
  rcases List.mem_or_eq_of_mem_set hr with h | h
  · exact hrows r h
  · rw [h, List.length_set]
    exact hrows _ (getD_mem hi [])

theorem cellOf_setSym (M : List (List α)) (d : α) (i j : Nat) (v : α) (a b : Nat)
    (hi : i < M.length) (hj : j < M.length)
    (hrows : ∀ r ∈ M, r.length = M.length) :
    cellOf (setSym M i j v) d a b =
      if (a = i ∧ b = j) ∨ (a = j ∧ b = i) then v else cellOf M d a b := by
  unfold setSym
  have hlen1 : (setMat M j i v).length = M.length := length_setMat M j i v
  have hrows1 : ∀ r ∈ setMat M j i v, r.length = M.length :=
    rows_setMat M j i v M.length hrows hj
  rw [cellOf_setMat _ d i j v a b (by rw [hlen1]; exact hi)
      (by rw [hrows1 _ (getD_mem (by rw [hlen1]; exact hi) [])]; exact hj)]
  rw [cellOf_setMat M d j i v a b hj (by rw [hrows _ (getD_mem hj [])]; exact hi)]
  by_cases h1 : a = i ∧ b = j
  · rw [if_pos h1, if_pos (Or.inl h1)]
  · rw [if_neg h1]
    by_cases h2 : a = j ∧ b = i
    · rw [if_pos h2, if_pos (Or.inr h2)]
    · rw [if_neg h2, if_neg (fun hc => hc.elim h1 h2)]

theorem length_setSym (M : List (List α)) (i j : Nat) (v : α) :
    (setSym M i j v).length = M.length := by
  unfold setSym
  rw [length_setMat, length_setMat]

theorem rows_setSym (M : List (List α)) (i j : Nat) (v : α) (n : Nat)
    (hrows : ∀ r ∈ M, r.length = n) (hi : i < M.length) (hj : j < M.length) :
    ∀ r ∈ setSym M i j v, r.length = n := by
  unfold setSym
  exact rows_setMat _ i j v n (rows_setMat M j i v n hrows hj)
    (by rw [length_setMat]; exact hi)

theorem length_resizeL (row : List α) (k : Nat) (z : α) :
    (resizeL row k z).length = k := by
  unfold resizeL
  rw [List.length_append, List.length_take, List.length_replicate]
  omega

theorem getD_append_left (l1 l2 : List β) (i : Nat) (d : β) (h : i < l1.length) :
    (l1 ++ l2).getD i d = l1.getD i d := by
  rw [List.getD_eq_getElem?_getD, List.getElem?_append_left h,
    ← List.getD_eq_getElem?_getD]

theorem getD_append_right (l1 l2 : List β) (i : Nat) (d : β) (h : l1.length ≤ i) :
    (l1 ++ l2).getD i d = l2.getD (i - l1.length) d := by
  rw [List.getD_eq_getElem?_getD, List.getElem?_append_right h,
    ← List.getD_eq_getElem?_getD]

theorem getD_map_lt (f : β → γ) (l : List β) (i : Nat) (d : γ) (d' : β)
    (h : i < l.length) : (l.map f).getD i d = f (l.getD i d') := by
  rw [List.getD_eq_getElem?_getD, List.getElem?_map,
    List.getElem?_eq_getElem h, List.getD_eq_getElem?_getD,
    List.getElem?_eq_getElem h]
  rfl

theorem getD_replicate_self (n : Nat) (z : β) (i : Nat) :
    (List.replicate n z).getD i z = z := by
  rw [List.getD_eq_getElem?_getD, List.getElem?_replicate]
  by_cases h : i < n
  · rw [if_pos h, Option.getD_some]
  · rw [if_neg h, Option.getD_none]

theorem getD_of_length_le (l : List β) (i : Nat) (d : β) (h : l.length ≤ i) :
    l.getD i d = d := by
  rw [List.getD_eq_getElem?_getD, List.getElem?_eq_none h, Option.getD_none]

theorem getD_resizeL_self (row : List α) (k : Nat) (z : α) (b : Nat) :
    (resizeL row k z).getD b z = if b < k then row.getD b z else z := by
  by_cases hb : b < k
  · rw [if_pos hb]
    unfold resizeL
    by_cases h : b < row.length
    · rw [getD_append_left _ _ _ _ (by rw [List.length_take]; omega),
        List.getD_eq_getElem?_getD, List.getElem?_take_of_lt hb,
        ← List.getD_eq_getElem?_getD]
    · rw [getD_append_right _ _ _ _ (by rw [List.length_take]; omega),
        getD_replicate_self, getD_of_length_le _ _ _ (by omega)]
  · rw [if_neg hb, getD_of_length_le _ _ _ (by rw [length_resizeL]; omega)]

/-- The cell-level reading of the matrix growth performed when a city is
appended: old cells are preserved, all new cells are `z`. -/
theorem cellOf_grow (M : List (List α)) (z : α) (n : Nat)
    (hlen : M.length = n) (hrows : ∀ r ∈ M, r.length = n) (a b : Nat) :
    cellOf ((M.map (fun row => resizeL row (n + 1) z)) ++ [List.replicate (n + 1) z]) z a b
      = if a < n ∧ b < n then cellOf M z a b else z := by
  unfold cellOf
  by_cases ha : a < n
  · rw [getD_append_left _ _ _ _ (by rw [List.length_map, hlen]; exact ha),
      getD_map_lt _ _ _ _ [] (by rw [hlen]; exact ha), getD_resizeL_self]
    have hrow : (M.getD a []).length = n :=
      hrows _ (getD_mem (by rw [hlen]; exact ha) [])
    by_cases hb : b < n
    · rw [if_pos (by omega : b < n + 1), if_pos ⟨ha, hb⟩]
    · by_cases hb1 : b < n + 1
      · rw [if_pos hb1, getD_of_length_le _ _ _ (by omega),
          if_neg (fun hc => hb hc.2)]
      · rw [if_neg hb1, if_neg (fun hc => hb hc.2)]
  · rw [if_neg (fun hc => ha hc.1)]
    by_cases ha1 : a = n
    · subst ha1
      rw [getD_append_right _ _ _ _ (le_of_eq (by rw [List.length_map, hlen])),
        List.length_map, hlen, Nat.sub_self]
      rw [List.getD_cons_zero, getD_replicate_self]
    · have houter :
          (List.map (fun row => resizeL row (n + 1) z) M
            ++ [List.replicate (n + 1) z]).getD a [] = [] :=
        getD_of_length_le _ _ _
          (by rw [List.length_append, List.length_map, hlen]; simp; omega)
      rw [houter, List.getD_nil]

/-! ### Helper lemmas: operations and structural invariants -/

/-- `add_road` either rejects (state unchanged) or sets the symmetric
adjacency cells at the two resolved, distinct indices. -/
theorem add_road_eq (m : Mgr) (c1 c2 : Name) :
    add_road m c1 c2 = m ∨
    ∃ i j, cityIndex m.city_names c1 = some i ∧
      cityIndex m.city_names c2 = some j ∧ c2 ≠ c1 ∧ cellR m i j ≠ 1 ∧
      add_road m c1 c2 = { m with roads := setSym m.roads i j 1 } := by
  unfold add_road
  split
  · rename_i i j heq1 heq2
    split
    · rename_i hcond
      exact Or.inr ⟨i, j, heq1, heq2, hcond.1, hcond.2, rfl⟩
    · exact Or.inl rfl
  · exact Or.inl rfl

theorem add_budget_eq (m : Mgr) (c1 c2 : Name) (b : ℚ) :
    add_budget m c1 c2 b = m ∨
    ∃ i j, cityIndex m.city_names c1 = some i ∧
      cityIndex m.city_names c2 = some j ∧ cellR m i j ≠ 0 ∧
      is_valid_budget b = true ∧
      add_budget m c1 c2 b = { m with budgets := setSym m.budgets i j b } := by
  unfold add_budget
  split
  · rename_i i j heq1 heq2
    split
    · rename_i hcond
      exact Or.inr ⟨i, j, heq1, heq2, hcond.1, hcond.2, rfl⟩
    · exact Or.inl rfl
  · exact Or.inl rfl

theorem load_road_step_eq (m : Mgr) (e : RoadEntry) :
    load_road_step m e = m ∨
    ∃ i j, cityIndex m.city_names e.city1 = some i ∧
      cityIndex m.city_names e.city2 = some j ∧ is_valid_budget e.budget = true ∧
      load_road_step m e = { m with roads := setSym m.roads i j 1
                                    budgets := setSym m.budgets i j e.budget } := by
  unfold load_road_step
  split
  · rename_i i j heq1 heq2
    split
    · rename_i hcond
      exact Or.inr ⟨i, j, heq1, heq2, hcond, rfl⟩
    · exact Or.inl rfl
  · exact Or.inl rfl

theorem city_exists_of_mem (ns : List Name) (x : Name) (h : x ∈ ns) :
    city_exists ns x = true := by
  unfold city_exists
  cases hc : cityIndex ns x with
  | none => exact absurd h ((cityIndex_eq_none_iff ns x).1 hc)
  | some i => rfl

theorem mem_of_city_exists (ns : List Name) (x : Name)
    (h : city_exists ns x = true) : x ∈ ns := by
  unfold city_exists at h
  cases hc : cityIndex ns x with
  | none => rw [hc] at h; exact absurd h (by simp)
  | some i =>
      obtain ⟨hlt, hget⟩ := cityIndex_some ([] : Name) hc
      rw [← hget]
      exact getD_mem hlt []

theorem foldl_inv {σ τ : Type} {P : σ → Prop} (f : σ → τ → σ)
    (hf : ∀ s x, P s → P (f s x)) :
    ∀ (l : List τ) (s : σ), P s → P (l.foldl f s) := by
  intro l
  induction l with
  | nil => intro s hs; exact hs
  | cons x xs ih => intro s hs; exact ih _ (hf s x hs)

theorem nodup_set_of_not_mem (l : List β) (i : Nat) (x : β)
    (hn : l.Nodup) (hx : x ∉ l) : (l.set i x).Nodup := by
  induction l generalizing i with
  | nil => simp
  | cons a t ih =>
      rw [List.nodup_cons] at hn
      rw [List.mem_cons] at hx
      push_neg at hx
      match i with
      | 0 =>
          rw [List.set_cons_zero, List.nodup_cons]
          exact ⟨hx.2, hn.2⟩
      | k + 1 =>
          rw [List.set_cons_succ, List.nodup_cons]
          refine ⟨?_, ih k hn.2 hx.2⟩
          intro hmem
          rcases List.mem_or_eq_of_mem_set hmem with h | h
          · exact hn.1 h
          · exact hx.1 h.symm

theorem Square_addCityRaw (m : Mgr) (x : Name) (hsq : Square m) :
    Square (addCityRaw m x) := by
  obtain ⟨h1, h2, h3, h4⟩ := hsq
  refine ⟨?_, ?_, ?_, ?_⟩
  · simp [addCityRaw, h1]
  · simp [addCityRaw, h2]
  · intro r hr
    simp only [addCityRaw, List.mem_append, List.mem_map, List.mem_singleton] at hr
    rcases hr with ⟨row, _, rfl⟩ | rfl
    · simp [length_resizeL, addCityRaw]
    · simp [addCityRaw]
  · intro r hr
    simp only [addCityRaw, List.mem_append, List.mem_map, List.mem_singleton] at hr
    rcases hr with ⟨row, _, rfl⟩ | rfl
    · simp [length_resizeL, addCityRaw]
    · simp [addCityRaw]

theorem cellR_addCityRaw (m : Mgr) (x : Name) (hsq : Square m) (a b : Nat) :
    cellR (addCityRaw m x) a b =
      if a < m.city_names.length ∧ b < m.city_names.length then cellR m a b else 0 :=
  cellOf_grow m.roads 0 m.city_names.length hsq.1 hsq.2.2.1 a b

theorem cellB_addCityRaw (m : Mgr) (x : Name) (hsq : Square m) (a b : Nat) :
    cellB (addCityRaw m x) a b =
      if a < m.city_names.length ∧ b < m.city_names.length then cellB m a b else 0 :=
  cellOf_grow m.budgets 0 m.city_names.length hsq.2.1 hsq.2.2.2 a b

theorem GoodCity_addCityRaw (m : Mgr) (x : Name) (hg : GoodCity m)
    (hx : x ∉ m.city_names) : GoodCity (addCityRaw m x) := by
  refine ⟨Square_addCityRaw m x hg.1, ?_⟩
  refine hg.2.append (by simp) ?_
  intro a ha hax
  rw [List.mem_singleton] at hax
  subst hax
  exact hx ha

theorem load_city_step_of_new (m : Mgr) (name : Name)
    (hv : is_valid_city_name name = true) (hm : name ∉ m.city_names) :
    load_city_step m name = addCityRaw m name := by
  unfold load_city_step
  rw [if_pos]
  exact ⟨hv, fun hex => hm (mem_of_city_exists _ _ hex)⟩

theorem load_city_step_of_reject (m : Mgr) (name : Name)
    (h : is_valid_city_name name = false ∨ name ∈ m.city_names) :
    load_city_step m name = m := by
  unfold load_city_step
  rw [if_neg]
  rintro ⟨h1, h2⟩
  rcases h with h | h
  · rw [h1] at h; exact Bool.noConfusion h
  · exact h2 (city_exists_of_mem _ _ h)

theorem GoodCity_load_city_step (m : Mgr) (name : Name) (hg : GoodCity m) :
    GoodCity (load_city_step m name) := by
  unfold load_city_step
  split
  · rename_i hcond
    exact GoodCity_addCityRaw m name hg
      (fun hmem => hcond.2 (city_exists_of_mem _ _ hmem))
  · exact hg

theorem GoodCity_add_cities_step (m : Mgr) (name : Name) (hg : GoodCity m) :
    GoodCity (add_cities_step m name) := by
  unfold add_cities_step
  split
  · rename_i hcond
    exact GoodCity_addCityRaw m name hg
      (fun hmem => hcond.2.1 (city_exists_of_mem _ _ hmem))
  · exact hg

theorem edit_city_roads (m : Mgr) (idx : Nat) (c' : Name) :
    (edit_city m idx c').roads = m.roads := by
  unfold edit_city
  split <;> rfl

theorem edit_city_budgets (m : Mgr) (idx : Nat) (c' : Name) :
    (edit_city m idx c').budgets = m.budgets := by
  unfold edit_city
  split <;> rfl

theorem GoodCity_edit_city (m : Mgr) (idx : Nat) (c' : Name) (hg : GoodCity m) :
    GoodCity (edit_city m idx c') := by
  unfold edit_city
  split
  · rename_i hcond
    obtain ⟨hsq1, hsq2, hsq3, hsq4⟩ := hg.1
    constructor
    · exact ⟨by simpa using hsq1, by simpa using hsq2,
        by simpa using hsq3, by simpa using hsq4⟩
    · exact nodup_set_of_not_mem _ _ _ hg.2
        (fun hmem => hcond.2.2.2.1 (city_exists_of_mem _ _ hmem))
  · exact hg

theorem GoodCity_add_road (m : Mgr) (c1 c2 : Name) (hg : GoodCity m) :
    GoodCity (add_road m c1 c2) := by
  rcases add_road_eq m c1 c2 with h | ⟨i, j, h1, h2, _, _, h⟩
  · rw [h]; exact hg
  · rw [h]
    obtain ⟨hsq1, hsq2, hsq3, hsq4⟩ := hg.1
    have hi : i < m.roads.length := by
      rw [hsq1]; exact (cityIndex_some [] h1).1
    have hj : j < m.roads.length := by
      rw [hsq1]; exact (cityIndex_some [] h2).1
    refine ⟨⟨?_, hsq2, ?_, hsq4⟩, hg.2⟩
    · rw [length_setSym]; exact hsq1
    · exact rows_setSym m.roads i j 1 m.city_names.length hsq3 hi hj

theorem GoodCity_add_budget (m : Mgr) (c1 c2 : Name) (b : ℚ) (hg : GoodCity m) :
    GoodCity (add_budget m c1 c2 b) := by
  rcases add_budget_eq m c1 c2 b with h | ⟨i, j, h1, h2, _, _, h⟩
  · rw [h]; exact hg
  · rw [h]
    obtain ⟨hsq1, hsq2, hsq3, hsq4⟩ := hg.1
    have hi : i < m.budgets.length := by
      rw [hsq2]; exact (cityIndex_some [] h1).1
    have hj : j < m.budgets.length := by
      rw [hsq2]; exact (cityIndex_some [] h2).1
    refine ⟨⟨hsq1, ?_, hsq3, ?_⟩, hg.2⟩
    · rw [length_setSym]; exact hsq2
    · exact rows_setSym m.budgets i j b m.city_names.length hsq4 hi hj

theorem load_road_step_city_names (m : Mgr) (e : RoadEntry) :
    (load_road_step m e).city_names = m.city_names := by
  rcases load_road_step_eq m e with h | ⟨i, j, _, _, _, h⟩ <;> rw [h]

theorem GoodCity_load_road_step (m : Mgr) (e : RoadEntry) (hg : GoodCity m) :
    GoodCity (load_road_step m e) := by
  rcases load_road_step_eq m e with h | ⟨i, j, h1, h2, _, h⟩
  · rw [h]; exact hg
  · rw [h]
    obtain ⟨hsq1, hsq2, hsq3, hsq4⟩ := hg.1
    have hiR : i < m.roads.length := by
      rw [hsq1]; exact (cityIndex_some [] h1).1
    have hjR : j < m.roads.length := by
      rw [hsq1]; exact (cityIndex_some [] h2).1
    have hiB : i < m.budgets.length := by
      rw [hsq2]; exact (cityIndex_some [] h1).1
    have hjB : j < m.budgets.length := by
      rw [hsq2]; exact (cityIndex_some [] h2).1
    refine ⟨⟨?_, ?_, ?_, ?_⟩, hg.2⟩
    · rw [length_setSym]; exact hsq1
    · rw [length_setSym]; exact hsq2
    · exact rows_setSym m.roads i j 1 m.city_names.length hsq3 hiR hjR
    · exact rows_setSym m.budgets i j e.budget m.city_names.length hsq4 hiB hjB

/-! ### Helper lemmas: symmetry and zero diagonal -/

/-- Out-of-range cells are the default, so symmetry needs checking only on
in-range positions. -/
theorem symR_of_bounded (m : Mgr) (hsq : Square m)
    (h : ∀ i < m.city_names.length, ∀ j < m.city_names.length,
      cellR m i j = cellR m j i) : SymR m := by
  intro i j
  by_cases hi : i < m.city_names.length
  · by_cases hj : j < m.city_names.length
    · exact h i hi j hj
    · rw [show cellR m i j = 0 from getD_of_length_le _ _ _
          (by rw [hsq.2.2.1 _ (getD_mem (by rw [hsq.1]; exact hi) [])]; omega),
        show cellR m j i = 0 from by
          unfold cellR cellOf
          rw [getD_of_length_le m.roads j [] (by rw [hsq.1]; omega), List.getD_nil]]
  · by_cases hj : j < m.city_names.length
    · rw [show cellR m i j = 0 from by
          unfold cellR cellOf
          rw [getD_of_length_le m.roads i [] (by rw [hsq.1]; omega), List.getD_nil],
        show cellR m j i = 0 from getD_of_length_le _ _ _
          (by rw [hsq.2.2.1 _ (getD_mem (by rw [hsq.1]; exact hj) [])]; omega)]
    · unfold cellR cellOf
      rw [getD_of_length_le m.roads i [] (by rw [hsq.1]; omega),
        getD_of_length_le m.roads j [] (by rw [hsq.1]; omega), List.getD_nil,
        List.getD_nil]

theorem symB_of_bounded (m : Mgr) (hsq : Square m)
    (h : ∀ i < m.city_names.length, ∀ j < m.city_names.length,
      cellB m i j = cellB m j i) : SymB m := by
  intro i j
  by_cases hi : i < m.city_names.length
  · by_cases hj : j < m.city_names.length
    · exact h i hi j hj
    · rw [show cellB m i j = 0 from getD_of_length_le _ _ _
          (by rw [hsq.2.2.2 _ (getD_mem (by rw [hsq.2.1]; exact hi) [])]; omega),
        show cellB m j i = 0 from by
          unfold cellB cellOf
          rw [getD_of_length_le m.budgets j [] (by rw [hsq.2.1]; omega), List.getD_nil]]
  · by_cases hj : j < m.city_names.length
    · rw [show cellB m i j = 0 from by
          unfold cellB cellOf
          rw [getD_of_length_le m.budgets i [] (by rw [hsq.2.1]; omega), List.getD_nil],
        show cellB m j i = 0 from getD_of_length_le _ _ _
          (by rw [hsq.2.2.2 _ (getD_mem (by rw [hsq.2.1]; exact hj) [])]; omega)]
    · unfold cellB cellOf
      rw [getD_of_length_le m.budgets i [] (by rw [hsq.2.1]; omega),
        getD_of_length_le m.budgets j [] (by rw [hsq.2.1]; omega), List.getD_nil,
        List.getD_nil]

theorem diagR_of_bounded (m : Mgr) (hsq : Square m)
    (h : ∀ i < m.city_names.length, cellR m i i = 0) : DiagR m := by
  intro i
  by_cases hi : i < m.city_names.length
  · exact h i hi
  · unfold cellR cellOf
    rw [getD_of_length_le m.roads i [] (by rw [hsq.1]; omega), List.getD_nil]

theorem diagB_of_bounded (m : Mgr) (hsq : Square m)
    (h : ∀ i < m.city_names.length, cellB m i i = 0) : DiagB m := by
  intro i
  by_cases hi : i < m.city_names.length
  · exact h i hi
  · unfold cellB cellOf
    rw [getD_of_length_le m.budgets i [] (by rw [hsq.2.1]; omega), List.getD_nil]

theorem symdiag_addCityRaw (m : Mgr) (x : Name) (hsq : Square m) :
    (SymR m → SymR (addCityRaw m x)) ∧ (SymB m → SymB (addCityRaw m x)) ∧
    (DiagR m → DiagR (addCityRaw m x)) ∧ (DiagB m → DiagB (addCityRaw m x)) := by
  refine ⟨fun h i j => ?_, fun h i j => ?_, fun h i => ?_, fun h i => ?_⟩
  · rw [cellR_addCityRaw m x hsq, cellR_addCityRaw m x hsq]
    by_cases hij : i < m.city_names.length ∧ j < m.city_names.length
    · rw [if_pos hij, if_pos ⟨hij.2, hij.1⟩]; exact h i j
    · rw [if_neg hij, if_neg (fun hc => hij ⟨hc.2, hc.1⟩)]
  · rw [cellB_addCityRaw m x hsq, cellB_addCityRaw m x hsq]
    by_cases hij : i < m.city_names.length ∧ j < m.city_names.length
    · rw [if_pos hij, if_pos ⟨hij.2, hij.1⟩]; exact h i j
    · rw [if_neg hij, if_neg (fun hc => hij ⟨hc.2, hc.1⟩)]
  · rw [cellR_addCityRaw m x hsq]
    by_cases hii : i < m.city_names.length ∧ i < m.city_names.length
    · rw [if_pos hii]; exact h i
    · rw [if_neg hii]
  · rw [cellB_addCityRaw m x hsq]
    by_cases hii : i < m.city_names.length ∧ i < m.city_names.length
    · rw [if_pos hii]; exact h i
    · rw [if_neg hii]

/-- Writing the symmetric pair of cells preserves matrix symmetry. -/
theorem symOf_setSym (M : List (List α)) (d v : α) (i j : Nat)
    (hi : i < M.length) (hj : j < M.length)
    (hrows : ∀ r ∈ M, r.length = M.length)
    (h : ∀ a b, cellOf M d a b = cellOf M d b a) :
    ∀ a b, cellOf (setSym M i j v) d a b = cellOf (setSym M i j v) d b a := by
  intro a b
  rw [cellOf_setSym M d i j v a b hi hj hrows, cellOf_setSym M d i j v b a hi hj hrows]
  by_cases hc : (a = i ∧ b = j) ∨ (a = j ∧ b = i)
  · rw [if_pos hc, if_pos (by tauto)]
  · rw [if_neg hc, if_neg (by tauto)]
    exact h a b

/-- Writing the symmetric pair of distinct cells preserves the zero
diagonal. -/
theorem diagOf_setSym (M : List (List α)) (d v : α) (i j : Nat)
    (hi : i < M.length) (hj : j < M.length) (hne : i ≠ j)
    (hrows : ∀ r ∈ M, r.length = M.length)
    (h : ∀ a, cellOf M d a a = d) :
    ∀ a, cellOf (setSym M i j v) d a a = d := by
  intro a
  rw [cellOf_setSym M d i j v a a hi hj hrows]
  rw [if_neg (by rintro (⟨rfl, rfl⟩ | ⟨rfl, rfl⟩) <;> exact hne rfl)]
  exact h a

theorem symdiag_add_road (m : Mgr) (c1 c2 : Name) (hg : GoodCity m) :
    (SymR m → SymR (add_road m c1 c2)) ∧ (SymB m → SymB (add_road m c1 c2)) ∧
    (DiagR m → DiagR (add_road m c1 c2)) ∧ (DiagB m → DiagB (add_road m c1 c2)) := by
  rcases add_road_eq m c1 c2 with h | ⟨i, j, h1, h2, hne, _, h⟩
  · rw [h]; exact ⟨id, id, id, id⟩
  · rw [h]
    obtain ⟨hsq1, hsq2, hsq3, hsq4⟩ := hg.1
    have hi : i < m.roads.length := by rw [hsq1]; exact (cityIndex_some [] h1).1
    have hj : j < m.roads.length := by rw [hsq1]; exact (cityIndex_some [] h2).1
    have hrows : ∀ r ∈ m.roads, r.length = m.roads.length := by
      rw [hsq1]; exact hsq3
    have hij : i ≠ j := by
      intro hc
      subst hc
      have e1 := (cityIndex_some [] h1).2
      have e2 := (cityIndex_some [] h2).2
      exact hne (by rw [← e1, ← e2])
    refine ⟨fun hs => symOf_setSym m.roads 0 1 i j hi hj hrows hs,
      fun hs => hs, fun hd => diagOf_setSym m.roads 0 1 i j hi hj hij hrows hd,
      fun hd => hd⟩

theorem symdiag_add_budget (m : Mgr) (c1 c2 : Name) (b : ℚ)
    (hg : GoodCity m) (hdR : DiagR m) :
    (SymR m → SymR (add_budget m c1 c2 b)) ∧ (SymB m → SymB (add_budget m c1 c2 b)) ∧
    (DiagR m → DiagR (add_budget m c1 c2 b)) ∧ (DiagB m → DiagB (add_budget m c1 c2 b)) := by
  rcases add_budget_eq m c1 c2 b with h | ⟨i, j, h1, h2, hr0, _, h⟩
  · rw [h]; exact ⟨id, id, id, id⟩
  · rw [h]
    obtain ⟨hsq1, hsq2, hsq3, hsq4⟩ := hg.1
    have hi : i < m.budgets.length := by rw [hsq2]; exact (cityIndex_some [] h1).1
    have hj : j < m.budgets.length := by rw [hsq2]; exact (cityIndex_some [] h2).1
    have hrows : ∀ r ∈ m.budgets, r.length = m.budgets.length := by
      rw [hsq2]; exact hsq4
    have hij : i ≠ j := by
      intro hc
      subst hc
      exact hr0 (hdR i)
    refine ⟨fun hs => hs,
      fun hs => symOf_setSym m.budgets 0 b i j hi hj hrows hs,
      fun hd => hd,
      fun hd => diagOf_setSym m.budgets 0 b i j hi hj hij hrows hd⟩

theorem symdiag_load_road_step (m : Mgr) (e : RoadEntry) (hg : GoodCity m) :
    (SymR m → SymR (load_road_step m e)) ∧ (SymB m → SymB (load_road_step m e)) ∧
    (e.city1 ≠ e.city2 → DiagR m → DiagR (load_road_step m e)) ∧
    (e.city1 ≠ e.city2 → DiagB m → DiagB (load_road_step m e)) := by
  rcases load_road_step_eq m e with h | ⟨i, j, h1, h2, _, h⟩
  · rw [h]; exact ⟨id, id, fun _ => id, fun _ => id⟩
  · rw [h]
    obtain ⟨hsq1, hsq2, hsq3, hsq4⟩ := hg.1
    have hiR : i < m.roads.length := by rw [hsq1]; exact (cityIndex_some [] h1).1
    have hjR : j < m.roads.length := by rw [hsq1]; exact (cityIndex_some [] h2).1
    have hiB : i < m.budgets.length := by rw [hsq2]; exact (cityIndex_some [] h1).1
    have hjB : j < m.budgets.length := by rw [hsq2]; exact (cityIndex_some [] h2).1
    have hrowsR : ∀ r ∈ m.roads, r.length = m.roads.length := by
      rw [hsq1]; exact hsq3
    have hrowsB : ∀ r ∈ m.budgets, r.length = m.budgets.length := by
      rw [hsq2]; exact hsq4
    have hij : e.city1 ≠ e.city2 → i ≠ j := by
      intro hne hc
      subst hc
      have e1 := (cityIndex_some [] h1).2
      have e2 := (cityIndex_some [] h2).2
      exact hne (by rw [← e1, ← e2])
    exact ⟨fun hs => symOf_setSym m.roads 0 1 i j hiR hjR hrowsR hs,
      fun hs => symOf_setSym m.budgets 0 e.budget i j hiB hjB hrowsB hs,
      fun hne hd => diagOf_setSym m.roads 0 1 i j hiR hjR (hij hne) hrowsR hd,
      fun hne hd => diagOf_setSym m.budgets 0 e.budget i j hiB hjB (hij hne) hrowsB hd⟩

theorem cellR_edit_city (m : Mgr) (idx : Nat) (c' : Name) (a b : Nat) :
    cellR (edit_city m idx c') a b = cellR m a b := by
  unfold cellR cellOf
  rw [edit_city_roads]

theorem cellB_edit_city (m : Mgr) (idx : Nat) (c' : Name) (a b : Nat) :
    cellB (edit_city m idx c') a b = cellB m a b := by
  unfold cellB cellOf
  rw [edit_city_budgets]

theorem FullInv_load_city_step (m : Mgr) (name : Name) (hf : FullInv m) :
    FullInv (load_city_step m name) := by
  obtain ⟨hg, hsR, hsB, hdR, hdB⟩ := hf
  unfold load_city_step
  split
  · rename_i hcond
    have hnm : name ∉ m.city_names :=
      fun hmem => hcond.2 (city_exists_of_mem _ _ hmem)
    have hsd := symdiag_addCityRaw m name hg.1
    exact ⟨GoodCity_addCityRaw m name hg hnm, hsd.1 hsR, hsd.2.1 hsB,
      hsd.2.2.1 hdR, hsd.2.2.2 hdB⟩
  · exact ⟨hg, hsR, hsB, hdR, hdB⟩

theorem FullInv_add_cities_step (m : Mgr) (name : Name) (hf : FullInv m) :
    FullInv (add_cities_step m name) := by
  obtain ⟨hg, hsR, hsB, hdR, hdB⟩ := hf
  unfold add_cities_step
  split
  · rename_i hcond
    have hnm : name ∉ m.city_names :=
      fun hmem => hcond.2.1 (city_exists_of_mem _ _ hmem)
    have hsd := symdiag_addCityRaw m name hg.1
    exact ⟨GoodCity_addCityRaw m name hg hnm, hsd.1 hsR, hsd.2.1 hsB,
      hsd.2.2.1 hdR, hsd.2.2.2 hdB⟩
  · exact ⟨hg, hsR, hsB, hdR, hdB⟩

theorem FullInv_edit_city (m : Mgr) (idx : Nat) (c' : Name) (hf : FullInv m) :
    FullInv (edit_city m idx c') := by
  obtain ⟨hg, hsR, hsB, hdR, hdB⟩ := hf
  refine ⟨GoodCity_edit_city m idx c' hg, ?_, ?_, ?_, ?_⟩
  · intro a b; rw [cellR_edit_city, cellR_edit_city]; exact hsR a b
  · intro a b; rw [cellB_edit_city, cellB_edit_city]; exact hsB a b
  · intro a; rw [cellR_edit_city]; exact hdR a
  · intro a; rw [cellB_edit_city]; exact hdB a

theorem load_roads_fold_full (L : List RoadEntry) :
    ∀ m : Mgr, FullInv m → (∀ e ∈ L, e.city1 ≠ e.city2) →
      FullInv (L.foldl load_road_step m) := by
  induction L with
  | nil => intro m hf _; exact hf
  | cons e L ih =>
      intro m hf hL
      obtain ⟨hg, hsR, hsB, hdR, hdB⟩ := hf
      have hsd := symdiag_load_road_step m e hg
      have hne : e.city1 ≠ e.city2 := hL e (List.mem_cons_self e L)
      exact ih (load_road_step m e)
        ⟨GoodCity_load_road_step m e hg, hsd.1 hsR, hsd.2.1 hsB,
          hsd.2.2.1 hne hdR, hsd.2.2.2 hne hdB⟩
        (fun e' he' => hL e' (List.mem_cons_of_mem e he'))

theorem load_roads_fold_sym (L : List RoadEntry) :
    ∀ m : Mgr, GoodCity m → SymR m → SymB m →
      GoodCity (L.foldl load_road_step m) ∧
      SymR (L.foldl load_road_step m) ∧ SymB (L.foldl load_road_step m) := by
  intro m hg hsR hsB
  refine @foldl_inv Mgr RoadEntry (fun s => GoodCity s ∧ SymR s ∧ SymB s)
    load_road_step ?_ L m ⟨hg, hsR, hsB⟩
  intro s e hs
  have hsd := symdiag_load_road_step s e hs.1
  exact ⟨GoodCity_load_road_step s e hs.1, hsd.1 hs.2.1, hsd.2.1 hs.2.2⟩

/-! ### Helper lemmas: the double-save analysis -/

theorem filterMap_eq_map_of_some (l : List β) (f : β → Option γ) (g : β → γ)
    (h : ∀ x ∈ l, f x = some (g x)) : l.filterMap f = l.map g := by
  induction l with
  | nil => rfl
  | cons x xs ih =>
      rw [List.filterMap_cons, h x (List.mem_cons_self x xs), List.map_cons,
        ih (fun y hy => h y (List.mem_cons_of_mem x hy))]

theorem entryFor_fields (m : Mgr) (ex : List RoadEntry) (p : Nat × Nat) :
    (entryFor m ex p).city1 = m.city_names.getD p.1 [] ∧
    (entryFor m ex p).city2 = m.city_names.getD p.2 [] ∧
    (entryFor m ex p).budget = cellB m p.1 p.2 := by
  unfold entryFor
  cases findRoad ex (m.city_names.getD p.1 []) (m.city_names.getD p.2 []) <;>
    exact ⟨rfl, rfl, rfl⟩

theorem entryFor_eta (m : Mgr) (ex : List RoadEntry) (p : Nat × Nat) :
    entryFor m ex p = ⟨(entryFor m ex p).nbr, m.city_names.getD p.1 [],
      m.city_names.getD p.2 [], cellB m p.1 p.2⟩ := by
  obtain ⟨h1, h2, h3⟩ := entryFor_fields m ex p
  cases he : entryFor m ex p
  rw [he] at h1 h2 h3
  simp only at h1 h2 h3
  rw [h1, h2, h3]

theorem mem_edgePairs_bounds (m : Mgr) (p : Nat × Nat) (hsq : Square m)
    (hp : p ∈ edgePairs m) :
    p.1 < m.city_names.length ∧ p.2 < m.city_names.length ∧ p.1 < p.2 := by
  obtain ⟨h1, h2, h3, _⟩ := mem_edgePairs.1 hp
  refine ⟨by rw [← hsq.1]; exact h1, ?_, h3⟩
  rw [← hsq.2.2.1 _ (getD_mem h1 [])]
  exact h2

/-- Under distinct names, two enumerated pairs with the same unordered
endpoint-name pair are the same pair. -/
theorem edgePairs_name_inj (m : Mgr) (p q : Nat × Nat)
    (hsq : Square m) (hnd : m.city_names.Nodup)
    (hp : p ∈ edgePairs m) (hq : q ∈ edgePairs m)
    (h : (m.city_names.getD q.1 [] = m.city_names.getD p.1 [] ∧
          m.city_names.getD q.2 [] = m.city_names.getD p.2 []) ∨
         (m.city_names.getD q.1 [] = m.city_names.getD p.2 [] ∧
          m.city_names.getD q.2 [] = m.city_names.getD p.1 [])) :
    q = p := by
  obtain ⟨hp1, hp2, hplt⟩ := mem_edgePairs_bounds m p hsq hp
  obtain ⟨hq1, hq2, hqlt⟩ := mem_edgePairs_bounds m q hsq hq
  rcases h with ⟨ha, hb⟩ | ⟨ha, hb⟩
  · have e1 := getD_inj_of_nodup [] hnd hq1 hp1 ha
    have e2 := getD_inj_of_nodup [] hnd hq2 hp2 hb
    exact Prod.ext e1 e2
  · have e1 := getD_inj_of_nodup [] hnd hq1 hp2 ha
    have e2 := getD_inj_of_nodup [] hnd hq2 hp1 hb
    omega

theorem parse_save_roads (m : Mgr) (disk : List DiskRoad)
    (hsq : Square m)
    (hsep : ∀ nm ∈ m.city_names, hasSep (nm ++ [' ', '-']) = false) :
    (save_roads_to_file m disk).filterMap parseDisk =
      (reconcile m (disk.filterMap parseDisk)).map reparse := by
  unfold save_roads_to_file
  rw [List.filterMap_map]
  refine filterMap_eq_map_of_some _ _ _ ?_
  intro r hr
  rw [mem_reconcile] at hr
  obtain ⟨p, hp, rfl⟩ := hr
  have hc1 : (entryFor m (disk.filterMap parseDisk) p).city1 ∈ m.city_names := by
    rw [(entryFor_fields m _ p).1]
    exact getD_mem (mem_edgePairs_bounds m p hsq hp).1 []
  exact parseDisk_writeRoad _ (hsep _ hc1)

/-! ### Helper lemmas: loading a saved road file -/

theorem load_fold_city_names (L : List RoadEntry) :
    ∀ m : Mgr, (L.foldl load_road_step m).city_names = m.city_names := by
  induction L with
  | nil => intro m; rfl
  | cons e L ih =>
      intro m
      rw [List.foldl_cons, ih (load_road_step m e), load_road_step_city_names]

theorem cellOf_zeroM (n : Nat) (z : α) (x y : Nat) :
    cellOf (zeroM n z) z x y = z := by
  unfold cellOf zeroM
  by_cases hx : x < n
  · have houter : (List.replicate n (List.replicate n z)).getD x [] =
        List.replicate n z := by
      rw [List.getD_eq_getElem?_getD, List.getElem?_replicate_of_lt hx,
        Option.getD_some]
    rw [houter, getD_replicate_self]
  · have houter : (List.replicate n (List.replicate n z)).getD x [] = [] :=
      getD_of_length_le _ _ _ (by rw [List.length_replicate]; omega)
    rw [houter, List.getD_nil]

theorem GoodCity_zeroState (names : List Name) (hnd : names.Nodup) :
    GoodCity ⟨names, zeroM names.length 0, zeroM names.length 0⟩ := by
  refine ⟨⟨?_, ?_, ?_, ?_⟩, hnd⟩
  · simp [zeroM]
  · simp [zeroM]
  · intro r hr
    unfold zeroM at hr
    rw [List.eq_of_mem_replicate hr]
    simp
  · intro r hr
    unfold zeroM at hr
    rw [List.eq_of_mem_replicate hr]
    simp

theorem load_road_step_sets (m : Mgr) (e : RoadEntry) (i j : Nat) (hg : GoodCity m)
    (h1 : cityIndex m.city_names e.city1 = some i)
    (h2 : cityIndex m.city_names e.city2 = some j)
    (hb : is_valid_budget e.budget = true) :
    cellR (load_road_step m e) i j = 1 ∧ cellB (load_road_step m e) i j = e.budget := by
  have hstep : load_road_step m e =
      { m with roads := setSym m.roads i j 1
               budgets := setSym m.budgets i j e.budget } := by
    unfold load_road_step
    rw [h1, h2, hb]
    simp
  rw [hstep]
  obtain ⟨hsq1, hsq2, hsq3, hsq4⟩ := hg.1
  have hiR : i < m.roads.length := by rw [hsq1]; exact (cityIndex_some [] h1).1
  have hjR : j < m.roads.length := by rw [hsq1]; exact (cityIndex_some [] h2).1
  have hiB : i < m.budgets.length := by rw [hsq2]; exact (cityIndex_some [] h1).1
  have hjB : j < m.budgets.length := by rw [hsq2]; exact (cityIndex_some [] h2).1
  constructor
  · show cellOf (setSym m.roads i j 1) 0 i j = 1
    rw [cellOf_setSym m.roads 0 i j 1 i j hiR hjR (by rw [hsq1]; exact hsq3),
      if_pos (Or.inl ⟨rfl, rfl⟩)]
  · show cellOf (setSym m.budgets i j e.budget) 0 i j = e.budget
    rw [cellOf_setSym m.budgets 0 i j e.budget i j hiB hjB (by rw [hsq2]; exact hsq4),
      if_pos (Or.inl ⟨rfl, rfl⟩)]

theorem load_road_step_untouched (m : Mgr) (e : RoadEntry) (x y : Nat)
    (hg : GoodCity m)
    (h : ∀ i j, cityIndex m.city_names e.city1 = some i →
      cityIndex m.city_names e.city2 = some j → is_valid_budget e.budget = true →
      ¬ ((i = x ∧ j = y) ∨ (i = y ∧ j = x))) :
    cellR (load_road_step m e) x y = cellR m x y ∧
    cellB (load_road_step m e) x y = cellB m x y := by
  rcases load_road_step_eq m e with hstep | ⟨i, j, h1, h2, hb, hstep⟩
  · rw [hstep]; exact ⟨rfl, rfl⟩
  · rw [hstep]
    obtain ⟨hsq1, hsq2, hsq3, hsq4⟩ := hg.1
    have hiR : i < m.roads.length := by rw [hsq1]; exact (cityIndex_some [] h1).1
    have hjR : j < m.roads.length := by rw [hsq1]; exact (cityIndex_some [] h2).1
    have hiB : i < m.budgets.length := by rw [hsq2]; exact (cityIndex_some [] h1).1
    have hjB : j < m.budgets.length := by rw [hsq2]; exact (cityIndex_some [] h2).1
    constructor
    · show cellOf (setSym m.roads i j 1) 0 x y = cellR m x y
      rw [cellOf_setSym m.roads 0 i j 1 x y hiR hjR (by rw [hsq1]; exact hsq3),
        if_neg (fun hc => h i j h1 h2 hb (by tauto))]
      rfl
    · show cellOf (setSym m.budgets i j e.budget) 0 x y = cellB m x y
      rw [cellOf_setSym m.budgets 0 i j e.budget x y hiB hjB
        (by rw [hsq2]; exact hsq4),
        if_neg (fun hc => h i j h1 h2 hb (by tauto))]
      rfl

theorem load_fold_untouched (x y : Nat) (L : List RoadEntry) :
    ∀ m : Mgr, GoodCity m →
      (∀ e ∈ L, ∀ i j, cityIndex m.city_names e.city1 = some i →
        cityIndex m.city_names e.city2 = some j → is_valid_budget e.budget = true →
        ¬ ((i = x ∧ j = y) ∨ (i = y ∧ j = x))) →
      cellR (L.foldl load_road_step m) x y = cellR m x y ∧
      cellB (L.foldl load_road_step m) x y = cellB m x y := by
  induction L with
  | nil => intro m _ _; exact ⟨rfl, rfl⟩
  | cons e L ih =>
      intro m hg hL
      rw [List.foldl_cons]
      have hstep := load_road_step_untouched m e x y hg
        (hL e (List.mem_cons_self e L))
      have hnames := load_road_step_city_names m e
      have hrest := ih (load_road_step m e) (GoodCity_load_road_step m e hg)
        (fun e' he' i j hi hj hb => by
          rw [hnames] at hi hj
          exact hL e' (List.mem_cons_of_mem e he') i j hi hj hb)
      exact ⟨hrest.1.trans hstep.1, hrest.2.trans hstep.2⟩

theorem load_fold_keep (x y : Nat) (v : ℚ) (L : List RoadEntry) :
    ∀ m : Mgr, GoodCity m →
      (∀ e ∈ L, ∀ i j, cityIndex m.city_names e.city1 = some i →
        cityIndex m.city_names e.city2 = some j → is_valid_budget e.budget = true →
        ((i = x ∧ j = y) ∨ (i = y ∧ j = x)) → e.budget = v) →
      cellR m x y = 1 → cellB m x y = v →
      cellR (L.foldl load_road_step m) x y = 1 ∧
      cellB (L.foldl load_road_step m) x y = v := by
  induction L with
  | nil => intro m _ _ h1 h2; exact ⟨h1, h2⟩
  | cons e L ih =>
      intro m hg hL hr hb
      rw [List.foldl_cons]
      have hnames := load_road_step_city_names m e
      have hstep : cellR (load_road_step m e) x y = 1 ∧
          cellB (load_road_step m e) x y = v := by
        rcases load_road_step_eq m e with hstep | ⟨i, j, h1, h2, hvb, hstep⟩
        · rw [hstep]; exact ⟨hr, hb⟩
        · obtain ⟨hsq1, hsq2, hsq3, hsq4⟩ := hg.1
          have hiR : i < m.roads.length := by
            rw [hsq1]; exact (cityIndex_some [] h1).1
          have hjR : j < m.roads.length := by
            rw [hsq1]; exact (cityIndex_some [] h2).1
          have hiB : i < m.budgets.length := by
            rw [hsq2]; exact (cityIndex_some [] h1).1
          have hjB : j < m.budgets.length := by
            rw [hsq2]; exact (cityIndex_some [] h2).1
          rw [hstep]
          by_cases ht : (i = x ∧ j = y) ∨ (i = y ∧ j = x)
          · have hbud : e.budget = v :=
              hL e (List.mem_cons_self e L) i j h1 h2 hvb ht
            constructor
            · show cellOf (setSym m.roads i j 1) 0 x y = 1
              rw [cellOf_setSym m.roads 0 i j 1 x y hiR hjR
                (by rw [hsq1]; exact hsq3), if_pos (by tauto)]
            · show cellOf (setSym m.budgets i j e.budget) 0 x y = v
              rw [cellOf_setSym m.budgets 0 i j e.budget x y hiB hjB
                (by rw [hsq2]; exact hsq4), if_pos (by tauto)]
              exact hbud
          · constructor
            · show cellOf (setSym m.roads i j 1) 0 x y = 1
              rw [cellOf_setSym m.roads 0 i j 1 x y hiR hjR
                (by rw [hsq1]; exact hsq3), if_neg (by tauto)]
              exact hr
            · show cellOf (setSym m.budgets i j e.budget) 0 x y = v
              rw [cellOf_setSym m.budgets 0 i j e.budget x y hiB hjB
                (by rw [hsq2]; exact hsq4), if_neg (by tauto)]
              exact hb
      exact ih (load_road_step m e) (GoodCity_load_road_step m e hg)
        (fun e' he' i j hi hj hvb ht => by
          rw [hnames] at hi hj
          exact hL e' (List.mem_cons_of_mem e he') i j hi hj hvb ht)
        hstep.1 hstep.2

/-- Each record of a saved file resolves, under the saving state's city
list, to exactly the edge's index pair. -/
theorem save_entry_resolve (m : Mgr) (E : List RoadEntry) (q : Nat × Nat)
    (hsq : Square m) (hnd : m.city_names.Nodup) (hq : q ∈ edgePairs m) :
    cityIndex m.city_names (reparse (entryFor m E q)).city1 = some q.1 ∧
    cityIndex m.city_names (reparse (entryFor m E q)).city2 = some q.2 := by
  obtain ⟨hq1, hq2, _⟩ := mem_edgePairs_bounds m q hsq hq
  constructor
  · rw [show (reparse (entryFor m E q)).city1 = (entryFor m E q).city1 from rfl,
      (entryFor_fields m E q).1]
    exact cityIndex_getD_of_nodup [] hnd hq1
  · rw [show (reparse (entryFor m E q)).city2 = (entryFor m E q).city2 from rfl,
      (entryFor_fields m E q).2.1]
    exact cityIndex_getD_of_nodup [] hnd hq2

/-- A record of a saved file that touches position `(x, y)` (with
`(x, y)` an enumerated edge pair of the saving state) is the record written
for that very edge. -/
theorem save_entry_toucher (m : Mgr) (E : List RoadEntry) (x y i j : Nat)
    (e : RoadEntry) (hsq : Square m) (hnd : m.city_names.Nodup)
    (hxy : (x, y) ∈ edgePairs m)
    (he : e ∈ (reconcile m E).map reparse)
    (hi : cityIndex m.city_names e.city1 = some i)
    (hj : cityIndex m.city_names e.city2 = some j)
    (ht : (i = x ∧ j = y) ∨ (i = y ∧ j = x)) :
    e = reparse (entryFor m E (x, y)) := by
  rw [List.mem_map] at he
  obtain ⟨r, hr, rfl⟩ := he
  rw [mem_reconcile] at hr
  obtain ⟨q, hq, rfl⟩ := hr
  obtain ⟨hr1, hr2⟩ := save_entry_resolve m E q hsq hnd hq
  rw [hr1] at hi
  rw [hr2] at hj
  have hiq : q.1 = i := Option.some.inj hi
  have hjq : q.2 = j := Option.some.inj hj
  have hxyb := mem_edgePairs_bounds m (x, y) hsq hxy
  have hqb := mem_edgePairs_bounds m q hsq hq
  have hqxy : q = (x, y) := by
    rcases ht with ⟨hix, hjy⟩ | ⟨hiy, hjx⟩
    · refine Prod.ext ?_ ?_
      · show q.1 = x
        omega
      · show q.2 = y
        omega
    · exfalso
      have h1 : q.1 < q.2 := hqb.2.2
      have h2 : x < y := hxyb.2.2
      omega
  rw [hqxy]

theorem resizeL_replicate (k : Nat) (z : α) :
    resizeL (List.replicate k z) (k + 1) z = List.replicate (k + 1) z := by
  unfold resizeL
  rw [List.take_of_length_le (by rw [List.length_replicate]; omega),
    List.length_replicate]
  have hone : k + 1 - k = 1 := by omega
  rw [hone, List.replicate_succ' k z]
  rfl

theorem grow_zeroM (k : Nat) (z : α) :
    (zeroM k z).map (fun row => resizeL row (k + 1) z) ++ [List.replicate (k + 1) z]
      = zeroM (k + 1) z := by
  unfold zeroM
  rw [List.map_replicate, resizeL_replicate, ← List.replicate_succ']

/-- `load_cities_from_file` over all-valid, globally distinct names appends
every name and keeps both matrices square and zero. -/
theorem load_cities_full (names : List Name) :
    ∀ pre : List Name, (∀ nm ∈ names, is_valid_city_name nm = true) →
      (pre ++ names).Nodup →
      load_cities_from_file ⟨pre, zeroM pre.length 0, zeroM pre.length 0⟩ names
        = ⟨pre ++ names, zeroM (pre ++ names).length 0,
            zeroM (pre ++ names).length 0⟩ := by
  induction names with
  | nil => intro pre _ _; simp [load_cities_from_file]
  | cons nm rest ih =>
      intro pre hval hnd
      have hnm : nm ∉ pre := by
        intro hmem
        rw [List.nodup_append] at hnd
        exact hnd.2.2 hmem (List.mem_cons_self nm rest)
      have hstep : load_city_step ⟨pre, zeroM pre.length 0, zeroM pre.length 0⟩ nm
          = addCityRaw ⟨pre, zeroM pre.length 0, zeroM pre.length 0⟩ nm :=
        load_city_step_of_new _ nm (hval nm (List.mem_cons_self nm rest)) hnm
      have hadd : addCityRaw ⟨pre, zeroM pre.length 0, zeroM pre.length 0⟩ nm
          = ⟨pre ++ [nm], zeroM (pre.length + 1) 0, zeroM (pre.length + 1) 0⟩ := by
        show Mgr.mk (pre ++ [nm])
            ((zeroM pre.length 0).map (fun row => resizeL row (pre.length + 1) 0)
              ++ [List.replicate (pre.length + 1) 0])
            ((zeroM pre.length 0).map (fun row => resizeL row (pre.length + 1) 0)
              ++ [List.replicate (pre.length + 1) 0])
          = Mgr.mk (pre ++ [nm]) (zeroM (pre.length + 1) 0) (zeroM (pre.length + 1) 0)
        rw [grow_zeroM, grow_zeroM]
      have hval' : ∀ nm' ∈ rest, is_valid_city_name nm' = true :=
        fun nm' h => hval nm' (List.mem_cons_of_mem nm h)
      have hnd' : ((pre ++ [nm]) ++ rest).Nodup := by
        rw [List.append_assoc, List.singleton_append]
        exact hnd
      have ihb := ih (pre ++ [nm]) hval' hnd'
      have hlen : (pre ++ [nm]).length = pre.length + 1 := by simp
      rw [hlen] at ihb
      unfold load_cities_from_file at ihb ⊢
      rw [List.foldl_cons, hstep, hadd, ihb]
      rw [List.append_assoc, List.singleton_append]

theorem edgePairs_ext (m1 m2 : Mgr) (n : Nat)
    (h1 : m1.roads.length = n) (h2 : m2.roads.length = n)
    (hr1 : ∀ r ∈ m1.roads, r.length = n) (hr2 : ∀ r ∈ m2.roads, r.length = n)
    (hcell : ∀ x y, x < n → y < n → x < y → (cellR m1 x y = 1 ↔ cellR m2 x y = 1)) :
    edgePairs m1 = edgePairs m2 := by
  unfold edgePairs
  rw [h1, h2]
  apply congrArg List.flatten
  apply List.map_congr_left
  intro i hi
  rw [List.mem_range] at hi
  have hrow1 : (m1.roads.getD i []).length = n :=
    hr1 _ (getD_mem (by rw [h1]; exact hi) [])
  have hrow2 : (m2.roads.getD i []).length = n :=
    hr2 _ (getD_mem (by rw [h2]; exact hi) [])
  rw [hrow1, hrow2]
  apply List.filterMap_congr
  intro j hj
  rw [List.mem_range] at hj
  by_cases hij : i < j
  · by_cases hc : cellR m1 i j = 1
    · rw [if_pos ⟨hij, hc⟩, if_pos ⟨hij, (hcell i j hi hj hij).1 hc⟩]
    · rw [if_neg (fun hcc => hc hcc.2),
        if_neg (fun hcc => hc ((hcell i j hi hj hij).2 hcc.2))]
  · rw [if_neg (fun hcc => hij hcc.1), if_neg (fun hcc => hij hcc.1)]

theorem canonEnum_ext (m1 m2 : Mgr) (n : Nat)
    (h1 : m1.roads.length = n) (h2 : m2.roads.length = n)
    (hr1 : ∀ r ∈ m1.roads, r.length = n) (hr2 : ∀ r ∈ m2.roads, r.length = n)
    (hcell : ∀ x y, x < n → y < n → x < y → (cellR m1 x y = 1 ↔ cellR m2 x y = 1))
    (hbud : ∀ x y, x < n → y < n → x < y → cellR m2 x y = 1 →
      cellB m1 x y = cellB m2 x y) :
    canonEnum m1 = canonEnum m2 := by
  unfold canonEnum
  rw [edgePairs_ext m1 m2 n h1 h2 hr1 hr2 hcell]
  apply List.map_congr_left
  intro p hp
  obtain ⟨hp1, hp2, hp3, hp4⟩ := mem_edgePairs.1 hp
  have hx : p.1 < n := by rw [← h2]; exact hp1
  have hy : p.2 < n := by
    rw [← hr2 _ (getD_mem hp1 [])]
    exact hp2
  rw [hbud p.1 p.2 hx hy hp3 hp4]

/-- A restart (constructor load of both saved files) as a fold over the
saved road records from the freshly loaded city state. -/
theorem init_as_fold (m : Mgr) (disk : List DiskRoad)
    (hsq : Square m) (hnd : m.city_names.Nodup)
    (hval : ∀ nm ∈ m.city_names, is_valid_city_name nm = true)
    (hsep : ∀ nm ∈ m.city_names, hasSep (nm ++ [' ', '-']) = false) :
    init_mgr (save_cities_to_file m) (save_roads_to_file m disk)
      = ((reconcile m (disk.filterMap parseDisk)).map reparse).foldl load_road_step
          ⟨m.city_names, zeroM m.city_names.length 0,
            zeroM m.city_names.length 0⟩ := by
  unfold init_mgr load_roads_from_file save_cities_to_file
  have hload0 : load_cities_from_file emptyMgr m.city_names
      = ⟨m.city_names, zeroM m.city_names.length 0, zeroM m.city_names.length 0⟩ := by
    have h := load_cities_full m.city_names [] hval (by simpa using hnd)
    simpa [zeroM, emptyMgr] using h
  rw [hload0, parse_save_roads m disk hsq hsep]

/-- After a save and a restart, an edge whose formatted budget passes the
validity predicate is present again with that formatted budget. -/
theorem loaded_cell_kept (m : Mgr) (disk : List DiskRoad)
    (hsq : Square m) (hnd : m.city_names.Nodup)
    (hval : ∀ nm ∈ m.city_names, is_valid_city_name nm = true)
    (hsep : ∀ nm ∈ m.city_names, hasSep (nm ++ [' ', '-']) = false)
    (x y : Nat) (hx : x < m.city_names.length) (hy : y < m.city_names.length)
    (hxy : x < y) (hcell : cellR m x y = 1)
    (hv : is_valid_budget (roundTo1 (cellB m x y)) = true) :
    cellR (init_mgr (save_cities_to_file m) (save_roads_to_file m disk)) x y = 1 ∧
    cellB (init_mgr (save_cities_to_file m) (save_roads_to_file m disk)) x y
      = roundTo1 (cellB m x y) := by
  rw [init_as_fold m disk hsq hnd hval hsep]
  have hp : (x, y) ∈ edgePairs m := by
    rw [mem_edgePairs]
    refine ⟨by rw [hsq.1]; exact hx, ?_, hxy, hcell⟩
    rw [hsq.2.2.1 _ (getD_mem (by rw [hsq.1]; exact hx) [])]
    exact hy
  have hrrL : reparse (entryFor m (disk.filterMap parseDisk) (x, y))
      ∈ (reconcile m (disk.filterMap parseDisk)).map reparse :=
    List.mem_map_of_mem _ (mem_reconcile.2 ⟨(x, y), hp, rfl⟩)
  obtain ⟨L1, L2, hLsplit⟩ := List.append_of_mem hrrL
  rw [hLsplit, List.foldl_append, List.foldl_cons]
  have hzg : GoodCity (⟨m.city_names, zeroM m.city_names.length 0,
      zeroM m.city_names.length 0⟩ : Mgr) := GoodCity_zeroState m.city_names hnd
  have hs1good : GoodCity (L1.foldl load_road_step
      ⟨m.city_names, zeroM m.city_names.length 0, zeroM m.city_names.length 0⟩) :=
    foldl_inv load_road_step GoodCity_load_road_step L1 _ hzg
  have hs1names : (L1.foldl load_road_step
      ⟨m.city_names, zeroM m.city_names.length 0,
        zeroM m.city_names.length 0⟩).city_names = m.city_names :=
    load_fold_city_names L1 _
  have hres := save_entry_resolve m (disk.filterMap parseDisk) (x, y) hsq hnd hp
  have hbudr : (reparse (entryFor m (disk.filterMap parseDisk) (x, y))).budget
      = roundTo1 (cellB m x y) := by
    show roundTo1 (entryFor m (disk.filterMap parseDisk) (x, y)).budget = _
    rw [(entryFor_fields m (disk.filterMap parseDisk) (x, y)).2.2]
  have hsets := load_road_step_sets _
    (reparse (entryFor m (disk.filterMap parseDisk) (x, y))) x y hs1good
    (by rw [hs1names]; exact hres.1)
    (by rw [hs1names]; exact hres.2)
    (by rw [hbudr]; exact hv)
  have hs2names : (load_road_step (L1.foldl load_road_step
      ⟨m.city_names, zeroM m.city_names.length 0, zeroM m.city_names.length 0⟩)
      (reparse (entryFor m (disk.filterMap parseDisk) (x, y)))).city_names
      = m.city_names := by
    rw [load_road_step_city_names, hs1names]
  refine load_fold_keep x y (roundTo1 (cellB m x y)) L2 _
    (GoodCity_load_road_step _ _ hs1good) ?_ hsets.1 (hsets.2.trans hbudr)
  intro e he i j hi hj hvb ht
  have heL : e ∈ (reconcile m (disk.filterMap parseDisk)).map reparse := by
    rw [hLsplit]
    exact List.mem_append_right L1
      (List.mem_cons_of_mem _ he)
  rw [hs2names] at hi hj
  have hetouch := save_entry_toucher m (disk.filterMap parseDisk) x y i j e
    hsq hnd hp heL hi hj ht
  rw [hetouch, hbudr]

/-- After a save and a restart, a pair that was not a present edge — or
whose formatted budget fails the validity predicate — has zero adjacency
and budget cells. -/
theorem loaded_cell_dropped (m : Mgr) (disk : List DiskRoad)
    (hsq : Square m) (hnd : m.city_names.Nodup)
    (hval : ∀ nm ∈ m.city_names, is_valid_city_name nm = true)
    (hsep : ∀ nm ∈ m.city_names, hasSep (nm ++ [' ', '-']) = false)
    (x y : Nat) (hxy : x < y)
    (hdrop : cellR m x y ≠ 1 ∨ is_valid_budget (roundTo1 (cellB m x y)) = false) :
    cellR (init_mgr (save_cities_to_file m) (save_roads_to_file m disk)) x y = 0 ∧
    cellB (init_mgr (save_cities_to_file m) (save_roads_to_file m disk)) x y = 0 := by
  rw [init_as_fold m disk hsq hnd hval hsep]
  have hzg : GoodCity (⟨m.city_names, zeroM m.city_names.length 0,
      zeroM m.city_names.length 0⟩ : Mgr) := GoodCity_zeroState m.city_names hnd
  have huntouched := load_fold_untouched x y
    ((reconcile m (disk.filterMap parseDisk)).map reparse) _ hzg ?_
  · constructor
    · rw [huntouched.1]
      exact cellOf_zeroM m.city_names.length 0 x y
    · rw [huntouched.2]
      exact cellOf_zeroM m.city_names.length 0 x y
  · intro e he i j hi hj hvb ht
    rw [List.mem_map] at he
    obtain ⟨r, hr, rfl⟩ := he
    rw [mem_reconcile] at hr
    obtain ⟨q, hq, rfl⟩ := hr
    have hres := save_entry_resolve m (disk.filterMap parseDisk) q hsq hnd hq
    rw [hres.1] at hi
    rw [hres.2] at hj
    have hiq : q.1 = i := Option.some.inj hi
    have hjq : q.2 = j := Option.some.inj hj
    have hqb := mem_edgePairs_bounds m q hsq hq
    have hqxy : q = (x, y) := by
      rcases ht with ⟨hix, hjy⟩ | ⟨hiy, hjx⟩
      · refine Prod.ext ?_ ?_
        · show q.1 = x
          omega
        · show q.2 = y
          omega
      · exfalso
        have h1 : q.1 < q.2 := hqb.2.2
        omega
    rw [hqxy] at hq hvb
    rcases hdrop with hdrop | hdrop
    · exact hdrop (mem_edgePairs.1 hq).2.2.2
    · rw [show (reparse (entryFor m (disk.filterMap parseDisk) (x, y))).budget
          = roundTo1 (cellB m x y) from by
            show roundTo1 (entryFor m (disk.filterMap parseDisk) (x, y)).budget = _
            rw [(entryFor_fields m (disk.filterMap parseDisk) (x, y)).2.2],
        hdrop] at hvb
      exact Bool.noConfusion hvb

/-! ### Counterexamples -/

/-- C1, counterexample.  Saving `mgr3` (edges `Aa–Bb`, `Aa–Cc`, `Bb–Cc`)
over a prior file whose only record is `1  Aa - Bb  5.0` introduces `k = 2`
new edges.  The claim demands new identifiers `{2, 3}`, each used exactly
once; the code emits identifiers `[1, 2, 2]` — both new edges get `2`,
because `next_nbr` is recomputed from the unchanged `existing_roads` list
for every unmatched edge. -/
theorem C1_counterexample :
    (save_roads_to_file mgr3 fileAaBb).map DiskRoad.nbr = [1, 2, 2] ∧
    ¬ ((save_roads_to_file mgr3 fileAaBb).map DiskRoad.nbr).Nodup := by
  decide

/-- C2, counterexample.  `mgr2` has the single road `Aa–Bb`, saved on disk
as `1  Aa - Bb  5.0`.  Renaming city 2 from `Bb` to `Cc` and saving emits
the record with the fresh identifier `2`, not the prior identifier `1`: the
reconcile match compares the current names with the names stored in the
file, so the renamed edge never matches its own record. -/
theorem C2_counterexample :
    (save_roads_to_file (edit_city mgr2 2 nCc) fileAaBb).map DiskRoad.nbr = [2] ∧
    ¬ ((save_roads_to_file (edit_city mgr2 2 nCc) fileAaBb).map DiskRoad.nbr = [1]) := by
  decide

/-- C3, counterexample.  `mgr2z` holds the road `Aa–Bb` with budget `0.0`
(created by `add_road`, never budgeted).  Saving both files and loading
them into a fresh manager yields an empty edge enumeration — the loaded
record fails `is_valid_budget`, so the edge is dropped — while the original
enumeration holds the edge. -/
theorem C3_counterexample :
    canonEnum (init_mgr (save_cities_to_file mgr2z) (save_roads_to_file mgr2z [])) = [] ∧
    canonEnum mgr2z = [(0, 1, 0)] ∧
    ¬ canonEnum (init_mgr (save_cities_to_file mgr2z) (save_roads_to_file mgr2z []))
        = canonEnum mgr2z := by
  decide

/-- C4, counterexample.  The prior file holds records with identifiers `5`
then `3` (not sorted, endpoints unresolvable).  The highest identifier in
the prior file is `5`, so the claim demands the new edge `Aa–Bb` receive
`6`; the code assigns `existing_roads.back().nbr + 1 = 4`, reading only the
*last* record. -/
theorem C4_counterexample :
    (save_roads_to_file mgr2 fileUnsorted).map DiskRoad.nbr = [4] ∧
    ¬ ((save_roads_to_file mgr2 fileUnsorted).map DiskRoad.nbr = [6]) := by
  decide

/-- C5, counterexample.  Loading the hand-edited record `1  Aa - Aa  10.0`
(a valid budget, both endpoints resolving to city 0) writes
`roads[0][0] = 1`: the road-file load routine does not reject self-loops,
so the zero-diagonal part of the claimed invariant fails after a load. -/
theorem C5_counterexample :
    cellR (load_roads_from_file mgr1 fileSelfLoop) 0 0 = 1 ∧
    ¬ cellR (load_roads_from_file mgr1 fileSelfLoop) 0 0 = 0 := by
  decide

/-- C6, counterexample.  `mgrSep` has cities `A - B` and `CC` (both names
pass `is_valid_city_name`) and one road between them.  The first save
writes the field `A - B - CC`; the second save re-parses it at the *first*
`" - "` occurrence into endpoints `A` and `B - CC`, fails to match the
current edge, and assigns a fresh identifier — so the second save is not
byte-identical to the first. -/
theorem C6_counterexample :
    ¬ save_roads_to_file mgrSep (save_roads_to_file mgrSep [])
        = save_roads_to_file mgrSep [] := by
  decide

/-! ### C1/C2/C4 amended: identifier assignment during a save -/

/-- An enumerated edge with no matching prior record is written with the
identifier `nextNbr` of the parsed prior list. -/
theorem new_entry_mem_save (m : Mgr) (disk : List DiskRoad)
    (p : Nat × Nat) (hp : p ∈ edgePairs m)
    (hnm : findRoad (disk.filterMap parseDisk)
      (m.city_names.getD p.1 []) (m.city_names.getD p.2 []) = none) :
    writeRoad ⟨nextNbr (disk.filterMap parseDisk),
        m.city_names.getD p.1 [], m.city_names.getD p.2 [], cellB m p.1 p.2⟩
      ∈ save_roads_to_file m disk := by
  unfold save_roads_to_file
  rw [List.mem_map]
  refine ⟨entryFor m (disk.filterMap parseDisk) p, mem_reconcile.2 ⟨p, hp, rfl⟩, ?_⟩
  unfold entryFor
  rw [hnm]

/-- C1, amended.  In one save, every written record either carries the
identifier of the first prior record matching its unordered endpoint-name
pair (so every matched identifier is preserved), or — when no prior record
matches — the single value `nextNbr` of the prior parsed list, namely the
last prior record's identifier plus one (1 for an empty or absent file).
All edges found new in the same save therefore receive that same
identifier, one more than the last prior identifier; they are not the
strictly increasing range `{max_prior + 1, …, max_prior + k}` the original
claim describes. -/
theorem C1_new_ids_all_equal (m : Mgr) (disk : List DiskRoad) :
    (∀ d ∈ save_roads_to_file m disk,
      (∃ e ∈ disk.filterMap parseDisk, d.nbr = e.nbr) ∨
        d.nbr = nextNbr (disk.filterMap parseDisk)) ∧
    (∀ p ∈ edgePairs m, ∀ e : RoadEntry,
      findRoad (disk.filterMap parseDisk)
          (m.city_names.getD p.1 []) (m.city_names.getD p.2 []) = some e →
      writeRoad ⟨e.nbr, m.city_names.getD p.1 [], m.city_names.getD p.2 [],
          cellB m p.1 p.2⟩ ∈ save_roads_to_file m disk) := by
  constructor
  · intro d hd
    unfold save_roads_to_file at hd
    rw [List.mem_map] at hd
    obtain ⟨r, hr, rfl⟩ := hd
    rw [mem_reconcile] at hr
    obtain ⟨p, hp, rfl⟩ := hr
    unfold entryFor
    cases hfind : findRoad (disk.filterMap parseDisk)
        (m.city_names.getD p.1 []) (m.city_names.getD p.2 []) with
    | none =>
        right
        rfl
    | some e =>
        left
        exact ⟨e, List.mem_of_find?_eq_some hfind, rfl⟩
  · intro p hp e hfind
    unfold save_roads_to_file
    rw [List.mem_map]
    refine ⟨entryFor m (disk.filterMap parseDisk) p, mem_reconcile.2 ⟨p, hp, rfl⟩, ?_⟩
    unfold entryFor
    rw [hfind]

/-- Witness for C1 at a concrete save: over prior file `1  Aa - Bb  5.0`,
state `mgr3` yields the new record `2  Aa - Cc  5.0` whose identifier is
`nextNbr`, and the matched record `1  Aa - Bb  5.0` keeps identifier 1. -/
theorem C1_new_ids_all_equal_witness :
    ((⟨2, nAa ++ sepChars ++ nCc, 5⟩ : DiskRoad) ∈ save_roads_to_file mgr3 fileAaBb ∧
      ((∃ e ∈ fileAaBb.filterMap parseDisk, (2 : Int) = e.nbr) ∨
        (2 : Int) = nextNbr (fileAaBb.filterMap parseDisk))) ∧
    writeRoad ⟨1, nAa, nBb, 5⟩ ∈ save_roads_to_file mgr3 fileAaBb :=
  ⟨⟨by decide,
    (C1_new_ids_all_equal mgr3 fileAaBb).1 ⟨2, nAa ++ sepChars ++ nCc, 5⟩ (by decide)⟩,
   (C1_new_ids_all_equal mgr3 fileAaBb).2 (0, 1) (by decide) ⟨1, nAa, nBb, 5⟩ (by decide)⟩

/-- C4, amended.  An enumerated edge with no matching prior record receives
the identifier `nextNbr` of the parsed prior list: one more than the
identifier of the *last* record of the prior file in file order (1 if the
file was empty or absent) — not one more than the highest identifier
appearing anywhere in it.  The last record contributes its identifier even
when its endpoints resolve to no current city, since the save never
resolves endpoints; for files the program itself wrote (sorted ascending by
identifier) last and highest coincide. -/
theorem C4_new_id_last_plus_one (m : Mgr) (disk : List DiskRoad)
    (p : Nat × Nat) (hp : p ∈ edgePairs m)
    (hnm : findRoad (disk.filterMap parseDisk)
      (m.city_names.getD p.1 []) (m.city_names.getD p.2 []) = none) :
    writeRoad ⟨nextNbr (disk.filterMap parseDisk),
        m.city_names.getD p.1 [], m.city_names.getD p.2 [], cellB m p.1 p.2⟩
      ∈ save_roads_to_file m disk :=
  new_entry_mem_save m disk p hp hnm

/-- Witness for C4: over the unsorted prior file with identifiers `[5, 3]`,
the unmatched edge `Aa–Bb` of `mgr2` is written with identifier `3 + 1 = 4`. -/
theorem C4_new_id_last_plus_one_witness :
    writeRoad ⟨nextNbr (fileUnsorted.filterMap parseDisk), nAa, nBb, 5⟩
      ∈ save_roads_to_file mgr2 fileUnsorted :=
  C4_new_id_last_plus_one mgr2 fileUnsorted (0, 1) (by decide) (by decide)

/-- C2, amended.  Renaming a city via `edit_city` and then saving does
*not* preserve the identifiers of its incident edges.  The reconcile match
compares the edge's current endpoint names against the names stored in the
prior file, which still holds the old name, so as long as the new name
occurs nowhere in the prior file the renamed edge matches no record and is
written with the fresh identifier `nextNbr` (last prior identifier plus
one); the record bearing the old name is dropped rather than updated. -/
theorem C2_rename_gets_fresh_id (m : Mgr) (disk : List DiskRoad)
    (idx : Nat) (c' : Name) (p : Nat × Nat)
    (hg1 : 1 ≤ idx) (hg2 : idx ≤ m.city_names.length) (hg3 : c' ≠ [])
    (hg4 : ¬ city_exists m.city_names c')
    (hg5 : is_valid_city_name c' = true)
    (hp : p ∈ edgePairs (edit_city m idx c')) (hj : p.2 = idx - 1)
    (hfresh : ∀ e ∈ disk.filterMap parseDisk, e.city1 ≠ c' ∧ e.city2 ≠ c') :
    writeRoad ⟨nextNbr (disk.filterMap parseDisk),
        (edit_city m idx c').city_names.getD p.1 [], c',
        cellB (edit_city m idx c') p.1 p.2⟩
      ∈ save_roads_to_file (edit_city m idx c') disk := by
  have hnames : (edit_city m idx c').city_names = m.city_names.set (idx - 1) c' := by
    unfold edit_city
    rw [if_pos ⟨hg1, hg2, hg3, hg4, hg5⟩]
  have hlt : idx - 1 < m.city_names.length := by omega
  have hc' : (edit_city m idx c').city_names.getD p.2 [] = c' := by
    rw [hnames, hj, List.getD_eq_getElem?_getD, List.getElem?_set_self hlt]
    rfl
  have hnm : findRoad (disk.filterMap parseDisk)
      ((edit_city m idx c').city_names.getD p.1 [])
      ((edit_city m idx c').city_names.getD p.2 []) = none := by
    unfold findRoad
    rw [List.find?_eq_none]
    intro e he hmatch
    rw [matchesPair_iff] at hmatch
    rw [hc'] at hmatch
    rcases hmatch with ⟨_, h2⟩ | ⟨h1, _⟩
    · exact (hfresh e he).2 h2
    · exact (hfresh e he).1 h1
  have := new_entry_mem_save (edit_city m idx c') disk p hp hnm
  rw [hc'] at this
  exact this

/-- Witness for C2: renaming `Bb` to `Cc` in `mgr2` and saving over the
prior file `1  Aa - Bb  5.0` writes the record `2  Aa - Cc` with the fresh
identifier `2`. -/
theorem C2_rename_gets_fresh_id_witness :
    writeRoad ⟨nextNbr (fileAaBb.filterMap parseDisk),
        (edit_city mgr2 2 nCc).city_names.getD 0 [], nCc,
        cellB (edit_city mgr2 2 nCc) 0 1⟩
      ∈ save_roads_to_file (edit_city mgr2 2 nCc) fileAaBb :=
  C2_rename_gets_fresh_id mgr2 fileAaBb 2 nCc (0, 1)
    (by decide) (by decide) (by decide) (by decide) (by decide)
    (by decide) (by decide) (by decide)

/-! ### C5 amended and C10: structural invariants -/

/-- C5, amended.  Starting from any state satisfying the invariants, the
adjacency and budget matrices stay symmetric after `add_cities`,
`add_road`, `add_budget`, `edit_city` and both file loads, and keep a zero
diagonal after all of those except the road-file load, where the zero
diagonal is preserved provided no parsed record names the same city at both
endpoints.  (The original claim fails for the road-file load: a hand-edited
self-loop record `X - X` with a valid budget sets `roads[i][i] = 1`.) -/
theorem C5_sym_diag_invariants (m : Mgr) (hg : GoodCity m)
    (hsR : SymR m) (hsB : SymB m) (hdR : DiagR m) (hdB : DiagB m) :
    (∀ name, SymR (add_cities_step m name) ∧ SymB (add_cities_step m name) ∧
      DiagR (add_cities_step m name) ∧ DiagB (add_cities_step m name)) ∧
    (∀ c1 c2, SymR (add_road m c1 c2) ∧ SymB (add_road m c1 c2) ∧
      DiagR (add_road m c1 c2) ∧ DiagB (add_road m c1 c2)) ∧
    (∀ c1 c2 b, SymR (add_budget m c1 c2 b) ∧ SymB (add_budget m c1 c2 b) ∧
      DiagR (add_budget m c1 c2 b) ∧ DiagB (add_budget m c1 c2 b)) ∧
    (∀ idx c', SymR (edit_city m idx c') ∧ SymB (edit_city m idx c') ∧
      DiagR (edit_city m idx c') ∧ DiagB (edit_city m idx c')) ∧
    (∀ names, SymR (load_cities_from_file m names) ∧
      SymB (load_cities_from_file m names) ∧
      DiagR (load_cities_from_file m names) ∧
      DiagB (load_cities_from_file m names)) ∧
    (∀ disk, SymR (load_roads_from_file m disk) ∧
      SymB (load_roads_from_file m disk)) ∧
    (∀ disk, (∀ e ∈ disk.filterMap parseDisk, e.city1 ≠ e.city2) →
      DiagR (load_roads_from_file m disk) ∧
      DiagB (load_roads_from_file m disk)) := by
  refine ⟨?_, ?_, ?_, ?_, ?_, ?_, ?_⟩
  · intro name
    have hf := FullInv_add_cities_step m name ⟨hg, hsR, hsB, hdR, hdB⟩
    exact ⟨hf.2.1, hf.2.2.1, hf.2.2.2.1, hf.2.2.2.2⟩
  · intro c1 c2
    have hsd := symdiag_add_road m c1 c2 hg
    exact ⟨hsd.1 hsR, hsd.2.1 hsB, hsd.2.2.1 hdR, hsd.2.2.2 hdB⟩
  · intro c1 c2 b
    have hsd := symdiag_add_budget m c1 c2 b hg hdR
    exact ⟨hsd.1 hsR, hsd.2.1 hsB, hsd.2.2.1 hdR, hsd.2.2.2 hdB⟩
  · intro idx c'
    have hf := FullInv_edit_city m idx c' ⟨hg, hsR, hsB, hdR, hdB⟩
    exact ⟨hf.2.1, hf.2.2.1, hf.2.2.2.1, hf.2.2.2.2⟩
  · intro names
    have hf := foldl_inv load_city_step FullInv_load_city_step names m
      ⟨hg, hsR, hsB, hdR, hdB⟩
    exact ⟨hf.2.1, hf.2.2.1, hf.2.2.2.1, hf.2.2.2.2⟩
  · intro disk
    have hf := load_roads_fold_sym (disk.filterMap parseDisk) m hg hsR hsB
    exact ⟨hf.2.1, hf.2.2⟩
  · intro disk hne
    have hf := load_roads_fold_full (disk.filterMap parseDisk) m
      ⟨hg, hsR, hsB, hdR, hdB⟩ hne
    exact ⟨hf.2.2.2.1, hf.2.2.2.2⟩

/-- Witness for C5: from `mgr2`, adding the road `Aa–Bb` again and loading
the road file `1  Aa - Bb  5.0` preserve symmetry and the zero diagonal. -/
theorem C5_sym_diag_invariants_witness :
    (SymR (add_road mgr2 nAa nBb) ∧ SymB (add_road mgr2 nAa nBb) ∧
      DiagR (add_road mgr2 nAa nBb) ∧ DiagB (add_road mgr2 nAa nBb)) ∧
    (DiagR (load_roads_from_file mgr2 fileAaBb) ∧
      DiagB (load_roads_from_file mgr2 fileAaBb)) :=
  ⟨(C5_sym_diag_invariants mgr2 (by decide)
      (symR_of_bounded mgr2 (by decide) (by decide))
      (symB_of_bounded mgr2 (by decide) (by decide))
      (diagR_of_bounded mgr2 (by decide) (by decide))
      (diagB_of_bounded mgr2 (by decide) (by decide))).2.1 nAa nBb,
   (C5_sym_diag_invariants mgr2 (by decide)
      (symR_of_bounded mgr2 (by decide) (by decide))
      (symB_of_bounded mgr2 (by decide) (by decide))
      (diagR_of_bounded mgr2 (by decide) (by decide))
      (diagB_of_bounded mgr2 (by decide) (by decide))).2.2.2.2.2.2
     fileAaBb (by decide)⟩

/-- C10.  City-file load appends a name exactly when it passes the validity
predicate and is not already present, growing both matrices to the new
square size with zero-filled new cells; distinct names and square matrices
(side = number of cities) hold for the empty start state and are preserved
by every operation. -/
theorem C10_city_load_invariants :
    (∀ (m : Mgr) (name : Name), is_valid_city_name name = true →
      name ∉ m.city_names → load_city_step m name = addCityRaw m name) ∧
    (∀ (m : Mgr) (name : Name),
      is_valid_city_name name = false ∨ name ∈ m.city_names →
      load_city_step m name = m) ∧
    (∀ (m : Mgr) (name : Name), GoodCity m → name ∉ m.city_names →
      (addCityRaw m name).city_names = m.city_names ++ [name] ∧
      GoodCity (addCityRaw m name) ∧
      (∀ a b, ¬ (a < m.city_names.length ∧ b < m.city_names.length) →
        cellR (addCityRaw m name) a b = 0 ∧ cellB (addCityRaw m name) a b = 0)) ∧
    GoodCity emptyMgr ∧
    (∀ m : Mgr, GoodCity m →
      (∀ names, GoodCity (load_cities_from_file m names)) ∧
      (∀ names, GoodCity (add_cities m names)) ∧
      (∀ c1 c2, GoodCity (add_road m c1 c2)) ∧
      (∀ c1 c2 b, GoodCity (add_budget m c1 c2 b)) ∧
      (∀ idx c', GoodCity (edit_city m idx c')) ∧
      (∀ disk, GoodCity (load_roads_from_file m disk))) := by
  refine ⟨load_city_step_of_new, load_city_step_of_reject, ?_, by decide, ?_⟩
  · intro m name hgd hnm
    refine ⟨rfl, GoodCity_addCityRaw m name hgd hnm, ?_⟩
    intro a b hab
    rw [cellR_addCityRaw m name hgd.1, cellB_addCityRaw m name hgd.1,
      if_neg hab, if_neg hab]
    exact ⟨rfl, rfl⟩
  · intro m hgd
    refine ⟨?_, ?_, fun c1 c2 => GoodCity_add_road m c1 c2 hgd,
      fun c1 c2 b => GoodCity_add_budget m c1 c2 b hgd,
      fun idx c' => GoodCity_edit_city m idx c' hgd, ?_⟩
    · intro names
      exact foldl_inv load_city_step GoodCity_load_city_step names m hgd
    · intro names
      exact foldl_inv add_cities_step GoodCity_add_cities_step names m hgd
    · intro disk
      exact foldl_inv load_road_step GoodCity_load_road_step
        (disk.filterMap parseDisk) m hgd

/-- Witness for C10: loading the name `Bb` into `mgr1` appends it and grows
the matrices, and `mgr2` keeps distinct names and square matrices across a
road addition. -/
theorem C10_city_load_invariants_witness :
    load_city_step mgr1 nBb = addCityRaw mgr1 nBb ∧
    GoodCity (addCityRaw mgr1 nBb) ∧
    GoodCity (add_road mgr2 nAa nBb) :=
  ⟨C10_city_load_invariants.1 mgr1 nBb (by decide) (by decide),
   (C10_city_load_invariants.2.2.1 mgr1 nBb (by decide) (by decide)).2.1,
   (C10_city_load_invariants.2.2.2.2 mgr2 (by decide)).2.2.1 nAa nBb⟩

/-! ### C6 amended: double save -/

/-- C6, amended.  When no city name contains a `" - "` occurrence (nor ends
in `" -"`, which would create one at the separator boundary), saving twice
with no intervening change produces identical road records: every record of
the first save re-parses to its own endpoints, matches its own edge, and is
re-emitted with the same identifier, endpoint names and budget.  (The
original claim fails for names such as `A - B`, see the counterexample.) -/
theorem C6_double_save_idempotent (m : Mgr) (disk : List DiskRoad)
    (hsq : Square m) (hnd : m.city_names.Nodup)
    (hsep : ∀ nm ∈ m.city_names, hasSep (nm ++ [' ', '-']) = false) :
    save_roads_to_file m (save_roads_to_file m disk) = save_roads_to_file m disk := by
  have hparse := parse_save_roads m disk hsq hsep
  have hpoint : ∀ p ∈ edgePairs m,
      entryFor m ((reconcile m (disk.filterMap parseDisk)).map reparse) p =
      entryFor m (disk.filterMap parseDisk) p := by
    intro p hp
    have hrp : entryFor m (disk.filterMap parseDisk) p
        ∈ reconcile m (disk.filterMap parseDisk) := mem_reconcile.2 ⟨p, hp, rfl⟩
    have hrpL : reparse (entryFor m (disk.filterMap parseDisk) p)
        ∈ (reconcile m (disk.filterMap parseDisk)).map reparse :=
      List.mem_map_of_mem _ hrp
    have hmatch : matchesPair (m.city_names.getD p.1 []) (m.city_names.getD p.2 [])
        (reparse (entryFor m (disk.filterMap parseDisk) p)) = true := by
      rw [matchesPair_iff]
      left
      exact ⟨(entryFor_fields m _ p).1, (entryFor_fields m _ p).2.1⟩
    cases hfind : findRoad ((reconcile m (disk.filterMap parseDisk)).map reparse)
        (m.city_names.getD p.1 []) (m.city_names.getD p.2 []) with
    | none =>
        exfalso
        rw [findRoad, List.find?_eq_none] at hfind
        exact hfind _ hrpL hmatch
    | some e' =>
        have he'mem := List.mem_of_find?_eq_some hfind
        have he'match : matchesPair (m.city_names.getD p.1 [])
            (m.city_names.getD p.2 []) e' = true := List.find?_some hfind
        rw [List.mem_map] at he'mem
        obtain ⟨r', hr', rfl⟩ := he'mem
        rw [mem_reconcile] at hr'
        obtain ⟨q, hq, rfl⟩ := hr'
        rw [matchesPair_iff] at he'match
        have hq_eq : q = p := by
          apply edgePairs_name_inj m p q hsq hnd hp hq
          rcases he'match with ⟨ha, hb⟩ | ⟨ha, hb⟩
          · left
            constructor
            · rw [← (entryFor_fields m (disk.filterMap parseDisk) q).1]; exact ha
            · rw [← (entryFor_fields m (disk.filterMap parseDisk) q).2.1]; exact hb
          · right
            constructor
            · rw [← (entryFor_fields m (disk.filterMap parseDisk) q).1]; exact ha
            · rw [← (entryFor_fields m (disk.filterMap parseDisk) q).2.1]; exact hb
        subst hq_eq
        have h1 : entryFor m ((reconcile m (disk.filterMap parseDisk)).map reparse) q =
            ⟨(reparse (entryFor m (disk.filterMap parseDisk) q)).nbr,
              m.city_names.getD q.1 [], m.city_names.getD q.2 [],
              cellB m q.1 q.2⟩ := by
          unfold entryFor
          rw [hfind]
          rfl
        rw [h1]
        conv_rhs => rw [entryFor_eta m (disk.filterMap parseDisk) q]
        rfl
  have hmap : (edgePairs m).map
      (entryFor m ((reconcile m (disk.filterMap parseDisk)).map reparse)) =
      (edgePairs m).map (entryFor m (disk.filterMap parseDisk)) :=
    List.map_congr_left hpoint
  calc save_roads_to_file m (save_roads_to_file m disk)
      = (reconcile m ((reconcile m (disk.filterMap parseDisk)).map reparse)).map
          writeRoad := by
        have houter : save_roads_to_file m (save_roads_to_file m disk)
            = (reconcile m ((save_roads_to_file m disk).filterMap parseDisk)).map
                writeRoad := rfl
        rw [houter, hparse]
    _ = (reconcile m (disk.filterMap parseDisk)).map writeRoad := by
        have hrec : reconcile m ((reconcile m (disk.filterMap parseDisk)).map reparse)
            = sortByNbr ((edgePairs m).map
                (entryFor m ((reconcile m (disk.filterMap parseDisk)).map reparse))) :=
          rfl
        rw [hrec, hmap]
        rfl
    _ = save_roads_to_file m disk := rfl

/-- Witness for C6 at a concrete state: saving `mgr2` twice from an empty
prior file yields the same single record both times. -/
theorem C6_double_save_idempotent_witness :
    save_roads_to_file mgr2 (save_roads_to_file mgr2 []) = save_roads_to_file mgr2 [] :=
  C6_double_save_idempotent mgr2 [] (by decide) (by decide) (by decide)

/-! ### C3 amended: round trip, and C9: zero-budget edges -/

/-- C3, amended.  For a reachable state in which every present edge's
budget passes the load-time validity predicate and is exact at one decimal
place, and no city name contains a `" - "` occurrence, saving both files
and loading them into a fresh manager reproduces the city list and the
canonical edge enumeration.  (Without the budget restriction the claim
fails — an edge saved with budget `0.0` is discarded on load, see the
counterexample — and names containing the separator corrupt re-parsing.) -/
theorem C3_round_trip (m : Mgr) (disk : List DiskRoad)
    (hsq : Square m) (hnd : m.city_names.Nodup)
    (hval : ∀ nm ∈ m.city_names, is_valid_city_name nm = true)
    (hsep : ∀ nm ∈ m.city_names, hasSep (nm ++ [' ', '-']) = false)
    (hbud : ∀ p ∈ edgePairs m, is_valid_budget (cellB m p.1 p.2) = true ∧
      roundTo1 (cellB m p.1 p.2) = cellB m p.1 p.2) :
    (init_mgr (save_cities_to_file m) (save_roads_to_file m disk)).city_names
      = m.city_names ∧
    canonEnum (init_mgr (save_cities_to_file m) (save_roads_to_file m disk))
      = canonEnum m := by
  have hnames : (init_mgr (save_cities_to_file m)
      (save_roads_to_file m disk)).city_names = m.city_names := by
    rw [init_as_fold m disk hsq hnd hval hsep]
    exact load_fold_city_names _ _
  have hg' : GoodCity (init_mgr (save_cities_to_file m)
      (save_roads_to_file m disk)) := by
    rw [init_as_fold m disk hsq hnd hval hsep]
    exact foldl_inv load_road_step GoodCity_load_road_step _ _
      (GoodCity_zeroState m.city_names hnd)
  have hedge : ∀ x y, x < m.city_names.length → y < m.city_names.length →
      x < y → cellR m x y = 1 → (x, y) ∈ edgePairs m := by
    intro x y hx hy hxy hc
    rw [mem_edgePairs]
    refine ⟨by rw [hsq.1]; exact hx, ?_, hxy, hc⟩
    rw [hsq.2.2.1 _ (getD_mem (by rw [hsq.1]; exact hx) [])]
    exact hy
  refine ⟨hnames, ?_⟩
  refine canonEnum_ext _ m m.city_names.length
    (by rw [hg'.1.1, hnames]) hsq.1
    (fun r hr => by rw [hg'.1.2.2.1 r hr, hnames]) hsq.2.2.1 ?_ ?_
  · intro x y hx hy hxy
    constructor
    · intro h1'
      by_contra hne
      have hd := loaded_cell_dropped m disk hsq hnd hval hsep x y hxy (Or.inl hne)
      rw [hd.1] at h1'
      exact Nat.noConfusion h1'
    · intro h2'
      have hp := hedge x y hx hy hxy h2'
      have hbv := hbud (x, y) hp
      exact (loaded_cell_kept m disk hsq hnd hval hsep x y hx hy hxy h2'
        (by rw [hbv.2]; exact hbv.1)).1
  · intro x y hx hy hxy h2'
    have hp := hedge x y hx hy hxy h2'
    have hbv := hbud (x, y) hp
    have hk := loaded_cell_kept m disk hsq hnd hval hsep x y hx hy hxy h2'
      (by rw [hbv.2]; exact hbv.1)
    rw [hk.2]
    exact hbv.2

/-- Witness for C3 at a concrete state: `mgr2` (road `Aa–Bb`, budget 5)
round-trips through both files. -/
theorem C3_round_trip_witness :
    (init_mgr (save_cities_to_file mgr2) (save_roads_to_file mgr2 [])).city_names
      = mgr2.city_names ∧
    canonEnum (init_mgr (save_cities_to_file mgr2) (save_roads_to_file mgr2 []))
      = canonEnum mgr2 :=
  C3_round_trip mgr2 [] (by decide) (by decide) (by decide) (by decide) (by decide)

/-- C9.  An edge created by `add_road` and never budgeted keeps budget 0
(`add_road` never writes the budget matrix), the next save writes its
record with budget field `0.0`, and the record is discarded on the next
load because `0.0` fails `is_valid_budget`; the edge's adjacency cell is 0
after a restart. -/
theorem C9_zero_budget_edge_lost (m : Mgr) (disk : List DiskRoad)
    (hsq : Square m) (hnd : m.city_names.Nodup)
    (hval : ∀ nm ∈ m.city_names, is_valid_city_name nm = true)
    (hsep : ∀ nm ∈ m.city_names, hasSep (nm ++ [' ', '-']) = false)
    (x y : Nat) (hxy : (x, y) ∈ edgePairs m) (hb0 : cellB m x y = 0) :
    (∀ c1 c2, (add_road m c1 c2).budgets = m.budgets) ∧
    (∃ d ∈ save_roads_to_file m disk,
      d.field = m.city_names.getD x [] ++ sepChars ++ m.city_names.getD y [] ∧
      d.budget = 0) ∧
    cellR (init_mgr (save_cities_to_file m) (save_roads_to_file m disk)) x y = 0 := by
  refine ⟨?_, ?_, ?_⟩
  · intro c1 c2
    rcases add_road_eq m c1 c2 with h | ⟨i, j, _, _, _, _, h⟩ <;> rw [h]
  · refine ⟨writeRoad (entryFor m (disk.filterMap parseDisk) (x, y)),
      List.mem_map_of_mem _ (mem_reconcile.2 ⟨(x, y), hxy, rfl⟩), ?_, ?_⟩
    · show (entryFor m (disk.filterMap parseDisk) (x, y)).city1 ++ sepChars ++
          (entryFor m (disk.filterMap parseDisk) (x, y)).city2 = _
      rw [(entryFor_fields m (disk.filterMap parseDisk) (x, y)).1,
        (entryFor_fields m (disk.filterMap parseDisk) (x, y)).2.1]
    · show roundTo1 (entryFor m (disk.filterMap parseDisk) (x, y)).budget = 0
      rw [(entryFor_fields m (disk.filterMap parseDisk) (x, y)).2.2, hb0]
      decide
  · exact (loaded_cell_dropped m disk hsq hnd hval hsep x y
      (mem_edgePairs_bounds m (x, y) hsq hxy).2.2
      (Or.inr (by rw [hb0]; decide))).1

/-- Witness for C9: `mgr2z` (road `Aa–Bb` never budgeted): a restart after
the save loses the edge. -/
theorem C9_zero_budget_edge_lost_witness :
    (∀ c1 c2, (add_road mgr2z c1 c2).budgets = mgr2z.budgets) ∧
    (∃ d ∈ save_roads_to_file mgr2z [],
      d.field = mgr2z.city_names.getD 0 [] ++ sepChars ++ mgr2z.city_names.getD 1 [] ∧
      d.budget = 0) ∧
    cellR (init_mgr (save_cities_to_file mgr2z) (save_roads_to_file mgr2z [])) 0 1 = 0 :=
  C9_zero_budget_edge_lost mgr2z [] (by decide) (by decide) (by decide) (by decide)
    0 1 (by decide) (by decide)

/-! ### C7: load-time record filtering -/

/-- C7.  During road-file load, a parsed record is discarded — the state is
returned unchanged and the fold continues — exactly when an endpoint fails
to resolve or the budget fails `is_valid_budget`; a record passing both
checks writes the symmetric adjacency and budget cells at the resolved
indices. -/
theorem C7_load_discard_iff :
    ∀ (m : Mgr) (e : RoadEntry),
      ((cityIndex m.city_names e.city1 = none ∨
        cityIndex m.city_names e.city2 = none ∨
        is_valid_budget e.budget = false) → load_road_step m e = m) ∧
      (∀ i j, cityIndex m.city_names e.city1 = some i →
        cityIndex m.city_names e.city2 = some j →
        is_valid_budget e.budget = true →
        load_road_step m e =
          { m with roads := setSym m.roads i j 1
                   budgets := setSym m.budgets i j e.budget }) := by
  intro m e
  constructor
  · intro h
    unfold load_road_step
    rcases h1 : cityIndex m.city_names e.city1 with _ | i
    · rfl
    · rcases h2 : cityIndex m.city_names e.city2 with _ | j
      · rfl
      · rcases h with h | h | h
        · simp [h1] at h
        · simp [h2] at h
        · simp [h]
  · intro i j h1 h2 hb
    unfold load_road_step
    rw [h1, h2, hb]
    simp

/-- Witness for C7 at concrete inputs: the record `Aa – Bb` with budget `0`
is discarded from `mgr2z`, and with budget `7` it is applied. -/
theorem C7_load_discard_iff_witness :
    load_road_step mgr2z ⟨1, nAa, nBb, 0⟩ = mgr2z ∧
    load_road_step mgr2z ⟨1, nAa, nBb, 7⟩ =
      { mgr2z with roads := setSym mgr2z.roads 0 1 1
                   budgets := setSym mgr2z.budgets 0 1 7 } :=
  ⟨(C7_load_discard_iff mgr2z ⟨1, nAa, nBb, 0⟩).1 (Or.inr (Or.inr (by decide))),
   (C7_load_discard_iff mgr2z ⟨1, nAa, nBb, 7⟩).2 0 1 (by decide) (by decide) (by decide)⟩

/-! ### C8: failed save leaves state untouched -/

/-- C8.  When the destination of a road-file save cannot be opened for
writing, the failure is reported, the in-memory manager state is completely
unchanged (the save routine never writes the members in either branch), and
the on-disk contents are left as they were. -/
theorem C8_save_failure_preserves_state :
    ∀ (m : Mgr) (disk : List DiskRoad),
      (save_roads_op false m disk).mgr = m ∧
      (save_roads_op false m disk).disk = disk ∧
      (save_roads_op false m disk).reported_error = true := by
  intro m disk
  exact ⟨rfl, rfl, rfl⟩

end RIMS
